import Mathlib

/-!
Verification development for the object-browser state store
(`useObjectBrowserStore` in the satellite web frontend).

The store manages a folder/file view over a flat, versioned object-storage
bucket: paginated listing, version grouping, multi-part upload with a
serialized completion chain, and recursive deletion.

The embedding below is a shallow functional model of the store: the reactive
state object becomes an explicit `FilesState` record; every public operation
becomes a pure function from the state (plus the transport responses it
consumes, supplied as explicit environment arguments) to the new state.
Transport calls that can fail are modelled with `Except`/`Bool` outcome
arguments chosen by the environment; a thrown exception corresponds to
returning the state as mutated up to the throwing point, since the real
store mutates its reactive state in place.

JavaScript `Date` values are modelled as `Int` millisecond timestamps,
`Map` as an association list with map semantics, and `Set<string>` as a
duplicate-free `List String`.
-/

set_option maxHeartbeats 1000000
set_option maxRecDepth 4000
set_option linter.unusedVariables false

/-- `'file' | 'folder'` discriminator of `BrowserObject.type`. -/
inductive FileType where
  | file
  | folder
deriving DecidableEq, Repr

/-- The non-recursive fields of `BrowserObject` (source: `export type
BrowserObject`).  The recursive `Versions` field is added by `BrowserObject`
below; entries stored inside `Versions` never themselves carry versions, so
the flat record suffices for them. -/
structure FlatObj where
  Key : String := ""
  VersionId : Option String := none
  Size : Nat := 0
  LastModified : Option Int := none
  type : Option FileType := none
  isDeleteMarker : Bool := false
  isLatest : Bool := false
  path : Option String := none
deriving DecidableEq, Repr

/-- `BrowserObject`: one display row; `Versions`, when present, holds the
full version history of a logical key. -/
structure BrowserObject extends FlatObj where
  Versions : Option (List FlatObj) := none
deriving DecidableEq, Repr

/-- `enum UploadingStatus`. -/
inductive UploadingStatus where
  | InProgress
  | Finished
  | Failed
  | Cancelled
deriving DecidableEq, Repr

/-- `enum FailedUploadMessage`. -/
inductive FailedUploadMessage where
  | Failed
  | TooBig
deriving DecidableEq, Repr

/-- `UploadingBrowserObject = BrowserObject & { status; Bucket; Body; failedMessage? }`.
The `File` body is modelled by its size, the only attribute the store reads. -/
structure UploadingBrowserObject extends FlatObj where
  status : UploadingStatus
  Bucket : String := ""
  bodySize : Nat := 0
  progress : Nat := 0
  failedMessage : Option FailedUploadMessage := none
deriving DecidableEq, Repr

/-- `_Object` of a list-objects response (S3 SDK): key, size, optional
modification time. -/
structure S3Obj where
  Key : String := ""
  Size : Nat := 0
  LastModified : Option Int := none
deriving DecidableEq, Repr

/-- One `ObjectVersion` record of a list-object-versions response. -/
structure VersionRec where
  Key : String := ""
  VersionId : Option String := none
  Size : Nat := 0
  LastModified : Option Int := none
  IsLatest : Option Bool := none
deriving DecidableEq, Repr

/-- One `DeleteMarkerEntry` record of a list-object-versions response. -/
structure MarkerRec where
  Key : String := ""
  VersionId : Option String := none
  LastModified : Option Int := none
deriving DecidableEq, Repr

/-- `ListObjectsV2CommandOutput` fields the store reads.  `CommonPrefixes`
entries model `CommonPrefix` records whose `Prefix` field is optional. -/
structure ListV2Resp where
  Contents : Option (List S3Obj) := none
  CommonPrefixes : Option (List (Option String)) := none
  NextContinuationToken : Option String := none
  KeyCount : Option Nat := none
deriving DecidableEq, Repr

/-- `ListObjectVersionsCommandOutput` fields the store reads. -/
structure ListVersionsResp where
  Versions : Option (List VersionRec) := none
  DeleteMarkers : Option (List MarkerRec) := none
  CommonPrefixes : Option (List (Option String)) := none
  NextKeyMarker : Option String := none
  NextVersionIdMarker : Option String := none
deriving DecidableEq, Repr

/-- `ObjectBrowserCursor`. -/
structure ObjectBrowserCursor where
  page : Nat
  limit : Nat
deriving DecidableEq, Repr

/-- `ObjectRange` (`activeObjectsRange`). -/
structure ObjectRange where
  start : Int
  stop : Int
deriving DecidableEq, Repr

/-- `MAX_KEY_COUNT = 500`. -/
def MAX_KEY_COUNT : Nat := 500

/-- `DEFAULT_PAGE_LIMIT` (imported constant; only its presence matters). -/
def DEFAULT_PAGE_LIMIT : Nat := 10

/-- The aggregate `FilesState`.  `s3` is reduced to an initialization flag
(the claims only depend on whether the client is configured), and the
promise `uploadChain` is modelled as the queue of pending completion-step
keys in enqueue order.  Fields not read or written by any modelled
operation (`openedDropdown`, preview cache, sort headings) are omitted. -/
structure FilesState where
  s3 : Bool := false
  accessKey : Option String := none
  path : String := ""
  bucket : String := ""
  browserRoot : String := "/"
  files : List BrowserObject := []
  cursor : ObjectBrowserCursor := { page := 1, limit := DEFAULT_PAGE_LIMIT }
  continuationTokens : List (Nat × String) := []
  totalObjectCount : Int := 0
  activeObjectsRange : ObjectRange := { start := 1, stop := 500 }
  uploadChain : List String := []
  uploading : List UploadingBrowserObject := []
  selectedFiles : List BrowserObject := []
  filesToBeDeleted : List String := []
  openModalOnFirstUpload : Bool := false
  objectPathForModal : String := ""
  showObjectVersions : Bool := false
  versionsExpandedKeys : List String := []
  objectCountOfSelectedBucket : Int := 0
deriving DecidableEq, Repr

/-- `new FilesState()` with the local-storage hint defaulting to 0. -/
def initialFilesState : FilesState := {}

deriving instance DecidableEq for Except

/-! ### Small helpers: JS string/collection semantics -/

/-- `a.startsWith(b)` on character lists. -/
def charsStartWith : List Char → List Char → Bool
  | _, [] => true
  | [], _ :: _ => false
  | c :: cs, p :: ps => c == p && charsStartWith cs ps

/-- Substring occurrence on character lists (JS `String.includes`). -/
def charsContain : List Char → List Char → Bool
  | [], p => p.isEmpty
  | c :: cs, p => charsStartWith (c :: cs) p || charsContain cs p

/-- JS `s.includes(pat)`. -/
def strContainsB (s pat : String) : Bool := charsContain s.data pat.data

/-- JS `s.slice(n)` for a character count `n`. -/
def strDrop (s : String) (n : Nat) : String := String.mk (s.data.drop n)

/-- JS `s.slice(n, -1)`: drop `n` leading characters and one trailing one. -/
def strSliceDropLast (s : String) (n : Nat) : String :=
  String.mk ((s.data.drop n).dropLast)

/-- `s.split('/')[0]`: the leading segment up to the first `/`. -/
def dirHead (s : String) : String :=
  String.mk (s.data.takeWhile (fun c => !(c == '/')))

/-- JS `Set.add`: insert without duplicating. -/
def setAdd (l : List String) (k : String) : List String :=
  if l.contains k then l else l ++ [k]

/-- `Map.set` on the page → continuation-token map. -/
def tokensSet (m : List (Nat × String)) (page : Nat) (tok : String) : List (Nat × String) :=
  if m.any (fun p => p.1 == page) then
    m.map (fun p => if p.1 == page then (p.1, tok) else p)
  else m ++ [(page, tok)]

/-- `Map.get`. -/
def tokensGet (m : List (Nat × String)) (page : Nat) : Option String :=
  (m.find? (fun p => p.1 == page)).map (fun p => p.2)

/-- Replace the first element satisfying `p` by its image under `f`
(JS: mutate the object returned by `Array.find`). -/
def updateFirstWhere (p : α → Bool) (f : α → α) : List α → List α
  | [] => []
  | x :: xs => if p x then f x :: xs else x :: updateFirstWhere p f xs

/-- Remove the first element satisfying `p`
(JS: `findIndex` + `splice(index, 1)`). -/
def removeFirstWhere (p : α → Bool) : List α → List α
  | [] => []
  | x :: xs => if p x then xs else x :: removeFirstWhere p xs

/-! ### Object model & path mapper -/

/-- `isFileVisible`: drop the empty relative key and `.file_placeholder`
entries. -/
def isVisibleKey (k : String) : Bool :=
  decide (0 < k.length) && !(strContainsB k ".file_placeholder")

/-- `prefixToFolder(path)`: synthesize a folder row from a common-prefix
string (`Prefix.slice(path.length, -1)`, size 0, fresh `LastModified`). -/
def prefixToFolder (path : String) (now : Int) (pre : String) : BrowserObject :=
  { Key := strSliceDropLast pre path.length
    path := some path
    LastModified := some now
    Size := 0
    type := some FileType.folder }

/-- `makeFileRelative(path)` applied to an `_Object`: relativize the key,
record the path and mark the entry as a file. -/
def makeFileRelative (path : String) (o : S3Obj) : BrowserObject :=
  { Key := strDrop o.Key path.length
    Size := o.Size
    LastModified := o.LastModified
    path := some path
    type := some FileType.file }

/-! ### `processFetchedObjects`: sort, then folders-then-files split

`Contents.sort` uses the comparator that returns 0 when either
`LastModified` is `undefined` or they are equal, and otherwise orders by
`LastModified`.  JS `Array.sort` is stable; a stable sort against this
comparator is realized by the insertion sort below, where an element is
inserted after every retained element not strictly greater than it. -/

/-- The comparator's strict case: `a.LastModified < b.LastModified` with
both defined. -/
def contentsCmpLT (a b : S3Obj) : Bool :=
  match a.LastModified, b.LastModified with
  | some x, some y => decide (x < y)
  | _, _ => false

/-- Stable insertion into a sorted-ascending list: keep `y` in front while
`y` is strictly earlier than `x`. -/
def insertAsc (x : S3Obj) : List S3Obj → List S3Obj
  | [] => [x]
  | y :: ys => if contentsCmpLT y x then y :: insertAsc x ys else x :: y :: ys

/-- Stable sort of `Contents` by ascending `LastModified`. -/
def sortContents : List S3Obj → List S3Obj
  | [] => []
  | x :: xs => insertAsc x (sortContents xs)

/-- The sort key with the comparator's `?? 0`-style default (only used on
entries whose `LastModified` is defined). -/
def slmOf (o : S3Obj) : Int := o.LastModified.getD 0

/-- The same key on a display row. -/
def lmOf (b : BrowserObject) : Int := b.LastModified.getD 0

/-- The `files` array built by `processFetchedObjects`: common-prefix
folders first, then the sorted, relativized, visible file entries. -/
def newFilesOf (path : String) (contentsO : Option (List S3Obj))
    (prefixesO : Option (List (Option String))) (now : Int) : List BrowserObject :=
  ((prefixesO.getD []).filterMap (fun p? => p?.map (prefixToFolder path now)))
    ++ (((sortContents (contentsO.getD [])).map (makeFileRelative path)).filter
          (fun f => isVisibleKey f.Key))

/-- `processFetchedObjects` followed by `updateFiles`: replace `path` and
`files`. -/
def processFetchedObjectsFn (st : FilesState) (path : String)
    (contentsO : Option (List S3Obj)) (prefixesO : Option (List (Option String)))
    (now : Int) : FilesState :=
  { st with path := path, files := newFilesOf path contentsO prefixesO now }

/-! ### Listing operations

Each listing operation receives the transport response as an explicit
`Except Unit …` argument: `.error` models a rejected transport call, which
propagates as an exception out of the operation, leaving the state as
mutated up to the point of the call. -/

/-- `listCustom(path, page, saveNextToken)`. -/
def listCustomFn (st : FilesState) (path : String) (page : Nat)
    (saveNextToken : Bool) (resp : Except Unit ListV2Resp) (now : Int) : FilesState :=
  if !st.s3 then st else
  match resp with
  | .error _ => st
  | .ok r =>
    let st1 := processFetchedObjectsFn st path r.Contents r.CommonPrefixes now
    let st2 :=
      match saveNextToken, r.NextContinuationToken with
      | true, some tok =>
        { st1 with continuationTokens := tokensSet st1.continuationTokens (page + 1) tok }
      | _, _ => st1
    { st2 with cursor := { st2.cursor with page := page } }

/-- `listByToken(path, key, continuationToken)`. -/
def listByTokenFn (st : FilesState) (path : String) (key : Int)
    (resp : Except Unit ListV2Resp) (now : Int) : FilesState :=
  if !st.s3 then st else
  match resp with
  | .error _ => st
  | .ok r =>
    let st1 := processFetchedObjectsFn st path r.Contents r.CommonPrefixes now
    { st1 with activeObjectsRange := { start := key - (MAX_KEY_COUNT : Int), stop := key } }

/-- The `for await` loop of `initList` over the native paginator's batches.
Returns the state as mutated so far, together with `some keyCount` when the
loop ended normally and `none` when a batch fetch threw (in which case
`totalObjectCount` is never assigned). -/
def initListLoop (path : String) (now : Int) :
    List (Except Unit ListV2Resp) → FilesState → Nat → Int → FilesState × Option Int
  | [], st, _, kc => (st, some kc)
  | .error _ :: _, st, _, _ => (st, none)
  | .ok r :: rest, st, iteration, kc =>
    let st1 :=
      if iteration == 1 then
        { processFetchedObjectsFn st path r.Contents r.CommonPrefixes now with
            activeObjectsRange := { start := 1, stop := (MAX_KEY_COUNT : Int) } }
      else st
    let kc1 := kc + (r.KeyCount.getD 0 : Int)
    match r.NextContinuationToken with
    | none => (st1, some kc1)
    | some tok =>
      initListLoop path now rest
        { st1 with continuationTokens :=
            tokensSet st1.continuationTokens (MAX_KEY_COUNT * (iteration + 1)) tok }
        (iteration + 1) kc1

/-- `initList(path)`: drain the paginator, decrement the key count by one
for a non-root path (the folder's `.file_placeholder`), record it. -/
def initListFn (st : FilesState) (path : String)
    (pages : List (Except Unit ListV2Resp)) (now : Int) : FilesState :=
  if !st.s3 then st else
  match initListLoop path now pages st 1 0 with
  | (st1, some kc) =>
    { st1 with totalObjectCount := kc - (if path = "" then 0 else 1) }
  | (st1, none) => st1

/-! ### Version grouping engine (`listAllVersions`) -/

/-- A version record after `makeFileRelative` and the `BrowserObject`
construction in the grouping loop (`'Size' in item` branch;
`LastModified: item.LastModified ?? new Date()`). -/
def versionToItem (path : String) (now : Int) (v : VersionRec) : FlatObj :=
  { Key := strDrop v.Key path.length
    path := some path
    VersionId := v.VersionId
    Size := v.Size
    LastModified := some (v.LastModified.getD now)
    isLatest := v.IsLatest.getD false
    type := some FileType.file
    isDeleteMarker := false }

/-- A delete-marker record after the same processing (no `Size` field:
size 0, `isDeleteMarker` true, `isLatest` false). -/
def markerToItem (path : String) (now : Int) (m : MarkerRec) : FlatObj :=
  { Key := strDrop m.Key path.length
    path := some path
    VersionId := m.VersionId
    Size := 0
    LastModified := some (m.LastModified.getD now)
    isLatest := false
    type := some FileType.file
    isDeleteMarker := true }

/-- `allItems = [...versions, ...deleteMarkers]` processed in order and
restricted to visible relative keys. -/
def processedVersionItems (path : String) (now : Int)
    (vs : List VersionRec) (ms : List MarkerRec) : List FlatObj :=
  ((vs.map (versionToItem path now)) ++ (ms.map (markerToItem path now))).filter
    (fun o => isVisibleKey o.Key)

/-- One step of filling the insertion-ordered `groupedItems` map. -/
def pushGroup (gs : List (String × List FlatObj)) (o : FlatObj) :
    List (String × List FlatObj) :=
  if gs.any (fun p => p.1 == o.Key) then
    gs.map (fun p => if p.1 == o.Key then (p.1, p.2 ++ [o]) else p)
  else gs ++ [(o.Key, [o])]

/-- `groupedItems`: group by relative key, preserving first-seen key order
and per-key push order (JS `Map` iteration order). -/
def groupItems (items : List FlatObj) : List (String × List FlatObj) :=
  items.foldl pushGroup []

/-- The time used by the version comparator:
`new Date(x.LastModified ?? 0).getTime()`. -/
def vTime (o : FlatObj) : Int := o.LastModified.getD 0

/-- Stable insertion into a most-recent-first list: keep `y` in front only
while it is strictly more recent than `x`. -/
def insertDesc (x : FlatObj) : List FlatObj → List FlatObj
  | [] => [x]
  | y :: ys => if decide (vTime x < vTime y) then y :: insertDesc x ys else x :: y :: ys

/-- Stable most-recent-first sort of one version group
(`items.sort((a, b) => time(b) - time(a))`). -/
def sortVersionsDesc : List FlatObj → List FlatObj
  | [] => []
  | x :: xs => insertDesc x (sortVersionsDesc xs)

/-- The representative row pushed onto `latestObjects` for one group:
sort the group most-recent-first, take `items[0]`, attach the full group. -/
def mkRepresentative (p : String × List FlatObj) : BrowserObject :=
  let items := sortVersionsDesc p.2
  let item := items.headD {}
  { Key := p.1
    Size := item.Size
    path := item.path
    type := item.type
    Versions := some items
    LastModified := item.LastModified
    isDeleteMarker := item.isDeleteMarker }

/-- `latestObjects` produced by `listAllVersions` from one response. -/
def versionRows (path : String) (now : Int)
    (vs : List VersionRec) (ms : List MarkerRec) : List BrowserObject :=
  (groupItems (processedVersionItems path now vs ms)).map mkRepresentative

/-- The `keys` pushed to `versionsExpandedKeys` (each group's
`item.path + item.Key` for the chosen representative). -/
def expandedKeysOf (path : String) (now : Int)
    (vs : List VersionRec) (ms : List MarkerRec) : List String :=
  (groupItems (processedVersionItems path now vs ms)).map
    (fun p =>
      let item := (sortVersionsDesc p.2).headD {}
      (item.path.getD "") ++ item.Key)

/-- `listAllVersions(path, page, saveNextToken)`.  Note that
`state.cursor.page = page` executes before the transport call, so a
transport error still leaves the page mutated. -/
def listAllVersionsFn (st : FilesState) (path : String) (page : Nat)
    (saveNextToken : Bool) (resp : Except Unit ListVersionsResp) (now : Int) :
    FilesState :=
  if !st.s3 then st else
  let st0 := { st with cursor := { st.cursor with page := page } }
  match resp with
  | .error _ => st0
  | .ok r =>
    let vs := r.Versions.getD []
    let ms := r.DeleteMarkers.getD []
    let st1 := { st0 with versionsExpandedKeys := expandedKeysOf path now vs ms }
    let st2 :=
      if saveNextToken then
        let nextToken := (r.NextKeyMarker.getD "") ++ "::" ++ (r.NextVersionIdMarker.getD "")
        if nextToken ≠ "::" then
          { st1 with continuationTokens := tokensSet st1.continuationTokens (page + 1) nextToken }
        else st1
      else st1
    let folders := (r.CommonPrefixes.getD []).filterMap (fun p? => p?.map (prefixToFolder path now))
    { st2 with path := path, files := folders ++ versionRows path now vs ms }

/-! ### Upload pipeline -/

/-- One traversed `(relativePath, file)` pair: `path` is `''` or ends in
`/`; the `File` is reduced to its name and size. -/
structure TravEntry where
  path : String := ""
  name : String := ""
  size : Nat := 0
deriving DecidableEq, Repr

/-- `30 * 1024 * 1024 * 1024` bytes. -/
def uploadSizeLimit : Nat := 30 * 1024 * 1024 * 1024

/-- `hasDuplicate`: the entry's top-level directory name or its full
relative key matches a listed key. -/
def hasDupB (fileNames : List String) (e : TravEntry) : Bool :=
  fileNames.contains (dirHead e.path) || fileNames.contains (e.path ++ e.name)

/-- The collision-collection loop of `upload`, with accumulator arguments
`dups` (collected colliding names) and `tc` (`traversedCount`).  Returns
the accepted `files` list, the final duplicate list, and how many traversal
entries the loop consumed.  The loop `break`s only when a fifth name is
collected or a collision is found while `traversedCount === 100`; an entry
that collides without triggering the break is still accepted into `files`. -/
def scanAux (fileNames : List String) (ignoreDuplicate : Bool) :
    List TravEntry → List String → Nat → List TravEntry × List String × Nat
  | [], dups, _ => ([], dups, 0)
  | e :: rest, dups, tc =>
    let fileName := e.path ++ e.name
    if !ignoreDuplicate && decide (dups.length < 5) && hasDupB fileNames e then
      let dups1 := dups ++ [fileName]
      if dups1.length == 5 || tc == 100 then ([], dups1, 1)
      else
        let r := scanAux fileNames ignoreDuplicate rest dups1 (tc + 1)
        (e :: r.1, r.2.1, r.2.2 + 1)
    else
      let r := scanAux fileNames ignoreDuplicate rest dups (tc + 1)
      (e :: r.1, r.2.1, r.2.2 + 1)

/-- Errors `upload` can throw before any transfer starts. -/
inductive UploadErr where
  | uninitialized
  | duplicate (names : List String)
deriving DecidableEq, Repr

/-- `enqueueUpload(key, body)` restricted to its synchronous state effects.
The second component records whether a transfer was handed to the transport
layer (an `Upload` object driven by `upload.done()` on the chain).  An
already-in-progress key is rejected with a notification; a terminal entry
for the key is spliced out; an oversized body is recorded as
`Failed`/`TooBig` and never reaches the transport. -/
def enqueueUploadFn (st : FilesState) (key : String) (bodySize : Nat) (now : Int) :
    FilesState × Bool :=
  if !st.s3 then (st, false) else
  if st.uploading.any (fun f => f.Key == key && f.status == UploadingStatus.InProgress) then
    (st, false)
  else
    let up := removeFirstWhere (fun f => f.Key == key) st.uploading
    if decide (bodySize > uploadSizeLimit) then
      ({ st with uploading := up ++
          [{ Key := key, Bucket := st.bucket, bodySize := bodySize, progress := 0,
             Size := 0, LastModified := some now,
             status := UploadingStatus.Failed,
             failedMessage := some FailedUploadMessage.TooBig,
             type := some FileType.file }] }, false)
    else
      ({ st with
          uploading := up ++
            [{ Key := key, Bucket := st.bucket, bodySize := bodySize, progress := 0,
               Size := 0, LastModified := some now,
               status := UploadingStatus.InProgress,
               type := some FileType.file }],
          uploadChain := st.uploadChain ++ [key] }, true)

/-- `upload(e, ignoreDuplicate)`: traverse (the flattened traversal is an
input), collect collisions against the listed keys, throw
`DuplicateUploadError` when any were collected — before any enqueue — and
otherwise enqueue every accepted file under `state.path + path + name`. -/
def uploadFn (st : FilesState) (ignoreDuplicate : Bool) (entries : List TravEntry)
    (now : Int) : Except UploadErr FilesState :=
  if !st.s3 then .error UploadErr.uninitialized else
  let fileNames := st.files.map (fun f => f.Key)
  let r := scanAux fileNames ignoreDuplicate entries [] 0
  if decide (0 < r.2.1.length) then .error (UploadErr.duplicate r.2.1)
  else
    .ok (r.1.foldl
      (fun s e => (enqueueUploadFn s (st.path ++ e.path ++ e.name) e.size now).1) st)

/-- `upload` as a state transformer (a thrown error leaves the state
unchanged: nothing was mutated before the throw). -/
def uploadOp (st : FilesState) (ignoreDuplicate : Bool) (entries : List TravEntry)
    (now : Int) : FilesState :=
  match uploadFn st ignoreDuplicate entries now with
  | .error _ => st
  | .ok st1 => st1

/-- `handleUploadError(item, error)` on the item's `(status, failedMessage)`
pair: returns the updated pair and the notification text, if any.  An
`AbortError` on an already-cancelled entry is swallowed. -/
def handleUploadErrorFn (status : UploadingStatus)
    (failedMessage : Option FailedUploadMessage) (errName errMsg : String) :
    UploadingStatus × Option FailedUploadMessage × Option String :=
  if errName == "AbortError" && status == UploadingStatus.Cancelled then
    (status, failedMessage, none)
  else
    (UploadingStatus.Failed, some FailedUploadMessage.Failed,
      some (if strContainsB errMsg "storage limit exceeded" then
              "Error: storage limit exceeded"
            else errMsg))

/-- `cancelUpload(key)`: throws (leaving the state unchanged) when no entry
has the key; otherwise requests abort on the transfer and flips the found
entry's status to `Cancelled`. -/
def cancelUploadFn (st : FilesState) (key : String) : FilesState :=
  match st.uploading.find? (fun f => f.Key == key) with
  | none => st
  | some _ =>
    let up := updateFirstWhere (fun f => f.Key == key)
      (fun f => { f with status := UploadingStatus.Cancelled }) st.uploading
    { st with uploading := up }

/-! ### Refresh dispatch shared by uploads and deletions

After a mutation the store refreshes the listing for the current mode:
version view, alternate pagination, or standard (`initList`).  The
environment supplies `isAltPagination` (a config-store computed value) and
the transport responses each branch would consume. -/

/-- Environment for one refresh: the mode flag and the responses. -/
structure RefreshEnv where
  altPag : Bool := false
  vResp : Except Unit ListVersionsResp := Except.error ()
  cResp : Except Unit ListV2Resp := Except.error ()
  pages : List (Except Unit ListV2Resp) := []
  now : Int := 0
deriving Repr

instance : Inhabited RefreshEnv := ⟨{}⟩

/-- `clearTokens()`. -/
def clearTokensFn (st : FilesState) : FilesState := { st with continuationTokens := [] }

/-- The refresh block: `showObjectVersions` → clear tokens and
`listAllVersions(path, 1, true)`; alternate pagination → clear tokens and
`listCustom(path, 1, true)`; otherwise `initList()`. -/
def applyRefresh (st : FilesState) (env : RefreshEnv) : FilesState :=
  if st.showObjectVersions then
    listAllVersionsFn (clearTokensFn st) st.path 1 true env.vResp env.now
  else if env.altPag then
    listCustomFn (clearTokensFn st) st.path 1 true env.cResp env.now
  else
    initListFn st st.path env.pages env.now

/-- Transport round trips a refresh performs (used to count calls). -/
def initListCallCount : List (Except Unit ListV2Resp) → Nat
  | [] => 0
  | .error _ :: _ => 1
  | .ok r :: rest =>
    match r.NextContinuationToken with
    | none => 1
    | some _ => 1 + initListCallCount rest

/-- Transport round trips of `applyRefresh`. -/
def applyRefreshCallCount (st : FilesState) (env : RefreshEnv) : Nat :=
  if st.showObjectVersions then 1
  else if env.altPag then 1
  else initListCallCount env.pages

/-- The outcome of `upload.done()` for one chain link, as the environment
resolves it. -/
structure UploadOutcomeErr where
  name : String := ""
  msg : String := ""
deriving DecidableEq, Repr

/-- One link of the serialized upload chain
(`state.uploadChain = state.uploadChain.then(async () => { … })`): look up
the entry for `key` unless it was cancelled; on success mark it `Finished`
and refresh; on failure run `handleUploadError` and stop; afterwards record
the key for the first-upload modal when applicable. -/
def chainStepFn (st : FilesState) (key : String)
    (outcome : Except UploadOutcomeErr Unit) (env : RefreshEnv) : FilesState :=
  let p := fun (f : UploadingBrowserObject) =>
    f.Key == key && !(f.status == UploadingStatus.Cancelled)
  match st.uploading.find? p with
  | none => st
  | some item =>
    match outcome with
    | .error e =>
      let r := handleUploadErrorFn item.status item.failedMessage e.name e.msg
      let up := updateFirstWhere p (fun f => { f with status := r.1, failedMessage := r.2.1 }) st.uploading
      { st with uploading := up }
    | .ok _ =>
      let up := updateFirstWhere p (fun f => { f with status := UploadingStatus.Finished }) st.uploading
      let st1 := applyRefresh { st with uploading := up } env
      let uploadedFiles := st1.files.filter (fun f => f.type == some FileType.file)
      if uploadedFiles.length == 1 && !(strContainsB key "/") && st1.openModalOnFirstUpload then
        { st1 with objectPathForModal := key }
      else st1

/-! ### Deletion engine -/

/-- Composite pending-deletion key:
`(file.path ?? '') + file.Key + (file.VersionId ?? '')`. -/
def compositeKey (f : FlatObj) : String :=
  (f.path.getD "") ++ f.Key ++ (f.VersionId.getD "")

/-- `addFileToBeDeleted(...files)`. -/
def addFilesToBeDeletedFn (st : FilesState) (fs : List FlatObj) : FilesState :=
  { st with filesToBeDeleted := fs.foldl (fun acc f => setAdd acc (compositeKey f)) st.filesToBeDeleted }

/-- `removeFile(file)`: clear the pending mark and drop the matching row. -/
def removeFileFn (st : FilesState) (f : FlatObj) : FilesState :=
  { st with
      filesToBeDeleted := st.filesToBeDeleted.erase (compositeKey f),
      files := st.files.filter (fun g => !(g.Key == f.Key && g.path == f.path)) }

/-- `deleteObject(path, file?, isFolder, shouldRefresh)`.  The second
component counts transport calls.  `file === undefined` returns before the
initialization assertion; the delete call itself is modelled as succeeding
(transport failures are modelled on listing calls). -/
def deleteObjectFn (st : FilesState) (path : String) (file : Option FlatObj)
    (isFolder shouldRefresh : Bool) (env : RefreshEnv) : FilesState × Nat :=
  match file with
  | none => (st, 0)
  | some f =>
    if !st.s3 then (st, 0) else
    let st1 :=
      if !isFolder then
        { st with filesToBeDeleted := setAdd st.filesToBeDeleted (compositeKey f) }
      else st
    let up := st1.uploading.filter (fun u => !(u.Key == path ++ f.Key))
    let st2 := { st1 with uploading := up }
    if !isFolder then
      if shouldRefresh then
        (removeFileFn (applyRefresh st2 env) f, 1 + applyRefreshCallCount st2 env)
      else (removeFileFn st2 f, 1)
    else (st2, 1)

/-- `deleteObjectWithVersions(path, file)`: list the versions (which may
fail, aborting before any mutation), delete them all, drop the key from
`uploading` and remove the row.  No pending-deletion mark is taken here. -/
def deleteObjectWithVersionsFn (st : FilesState) (path : String) (f : FlatObj)
    (listOk : Bool) : FilesState :=
  if !st.s3 then st else
  if !listOk then st else
  let up := st.uploading.filter (fun u => !(u.Key == path ++ f.Key))
  removeFileFn { st with uploading := up } f

/-- The environment's view of the recursive folder listing: at each level
either the list call fails, or it yields `Contents` (full keys) and the
subtrees behind each discovered common prefix. -/
inductive DirTree where
  | failed : DirTree
  | node : List S3Obj → List DirTree → DirTree

instance : Inhabited DirTree := ⟨DirTree.failed⟩

/-- A listed `_Object` as passed to `deleteObject('', file, true, …)`. -/
def browserOfS3 (o : S3Obj) : FlatObj :=
  { Key := o.Key, Size := o.Size, LastModified := o.LastModified }

/-- `recurse(filePath)` inside `deleteFolder`/`deleteFolderWithVersions`:
drain the level's entries through the three-worker pool (every entry is
deleted exactly once; the pool's interleaving is immaterial to the state,
so the drain is folded sequentially), then recurse into each sub-prefix.
`fuel` bounds the recursion depth; exhaustion is reported as failure, like
a thrown listing error (`false` = an exception propagated). -/
def recurseDeleteF (shouldRefresh : Bool) (env : RefreshEnv) :
    Nat → DirTree → FilesState → FilesState × Bool
  | 0, _, st => (st, false)
  | _ + 1, DirTree.failed, st => (st, false)
  | fuel + 1, DirTree.node cs subs, st =>
    let st1 := cs.foldl
      (fun s c => (deleteObjectFn s "" (some (browserOfS3 c)) true shouldRefresh env).1) st
    subs.foldl
      (fun acc t => if acc.2 then recurseDeleteF shouldRefresh env fuel t acc.1 else acc)
      (st1, true)

/-- `deleteFolder(file, path, shouldRefresh)`: mark the folder's composite
key pending, recurse (a failure there propagates, skipping the cleanup),
then unmark/remove the row and refresh if requested.  The `Bool` result
records whether the operation completed without a thrown error. -/
def deleteFolderFn (st : FilesState) (file : BrowserObject) (path : String)
    (shouldRefresh : Bool) (fuel : Nat) (tree : DirTree) (env : RefreshEnv) :
    FilesState × Bool :=
  if !st.s3 then (st, false) else
  let st1 := { st with filesToBeDeleted := setAdd st.filesToBeDeleted (compositeKey file.toFlatObj) }
  match recurseDeleteF shouldRefresh env fuel tree st1 with
  | (st2, false) => (st2, false)
  | (st2, true) =>
    let st3 := removeFileFn st2 file.toFlatObj
    if shouldRefresh then (applyRefresh st3 env, true) else (st3, true)

/-- `deleteFolderWithVersions(file, path)`: same recursive structure over
the versions listing (no refresh). -/
def deleteFolderWithVersionsFn (st : FilesState) (file : BrowserObject)
    (path : String) (fuel : Nat) (tree : DirTree) (env : RefreshEnv) :
    FilesState × Bool :=
  if !st.s3 then (st, false) else
  let st1 := { st with filesToBeDeleted := setAdd st.filesToBeDeleted (compositeKey file.toFlatObj) }
  match recurseDeleteF false env fuel tree st1 with
  | (st2, false) => (st2, false)
  | (st2, true) => (removeFileFn st2 file.toFlatObj, true)

/-- The per-entry tasks of `deleteSelected` (refresh suppressed; the
`Promise.all` fan-out is folded sequentially, matching its effect on the
state).  `trees` assigns the folder-recursion environment of the i-th
selected entry.  The version-preserving variant is the `withVersions =
false` branch pair (`deleteObject` / `deleteFolder`). -/
def deleteSelectedGo (path : String) (env : RefreshEnv) (trees : Nat → DirTree)
    (fuel : Nat) : List BrowserObject → Nat → FilesState → FilesState
  | [], _, st => st
  | f :: fs, i, st =>
    let st1 :=
      if f.type == some FileType.file then
        (deleteObjectFn st path (some f.toFlatObj) false false env).1
      else
        (deleteFolderFn st f path false fuel (trees i) env).1
    deleteSelectedGo path env trees fuel fs (i + 1) st1

/-- `deleteSelected()`: mark every selected entry pending, then run the
per-entry tasks. -/
def deleteSelectedFn (st : FilesState) (trees : Nat → DirTree) (fuel : Nat)
    (env : RefreshEnv) : FilesState :=
  let st1 := addFilesToBeDeletedFn st (st.selectedFiles.map (fun f => f.toFlatObj))
  deleteSelectedGo st.path env trees fuel st1.selectedFiles 0 st1

/-! ### Lifecycle operations -/

/-- Arguments of `init` the model retains. -/
structure InitArgs where
  accessKey : String := ""
  bucket : String := ""
  browserRoot : String := "/"
  openModalOnFirstUpload : Bool := true
deriving DecidableEq, Repr

/-- `init(...)`: configure the client and reset path/files; all other
state (uploads, pending deletions, tokens) is retained. -/
def initFn (st : FilesState) (a : InitArgs) : FilesState :=
  { st with
      s3 := true
      accessKey := some a.accessKey
      bucket := a.bucket
      browserRoot := a.browserRoot
      openModalOnFirstUpload := a.openModalOnFirstUpload
      path := ""
      files := [] }

/-- `clear()`: reset every field to its default. -/
def clearFn (_st : FilesState) : FilesState := initialFilesState

/-- `clearUploading()`. -/
def clearUploadingFn (st : FilesState) : FilesState := { st with uploading := [] }

/-- `updateSelectedFiles(files)`. -/
def updateSelectedFilesFn (st : FilesState) (fs : List BrowserObject) : FilesState :=
  { st with selectedFiles := fs }

/-! ### State machine of public operations (for reachability claims) -/

/-- One public operation applied to the state, with its environment
(transport responses, traversal results, clock) chosen freely. -/
inductive Step : FilesState → FilesState → Prop where
  | init (s : FilesState) (a : InitArgs) : Step s (initFn s a)
  | initList (s : FilesState) (path : String) (pages : List (Except Unit ListV2Resp))
      (now : Int) : Step s (initListFn s path pages now)
  | listCustom (s : FilesState) (path : String) (page : Nat) (save : Bool)
      (resp : Except Unit ListV2Resp) (now : Int) :
      Step s (listCustomFn s path page save resp now)
  | listByToken (s : FilesState) (path : String) (key : Int)
      (resp : Except Unit ListV2Resp) (now : Int) :
      Step s (listByTokenFn s path key resp now)
  | listAllVersions (s : FilesState) (path : String) (page : Nat) (save : Bool)
      (resp : Except Unit ListVersionsResp) (now : Int) :
      Step s (listAllVersionsFn s path page save resp now)
  | upload (s : FilesState) (ignoreDuplicate : Bool) (entries : List TravEntry)
      (now : Int) : Step s (uploadOp s ignoreDuplicate entries now)
  | enqueueUpload (s : FilesState) (key : String) (bodySize : Nat) (now : Int) :
      Step s (enqueueUploadFn s key bodySize now).1
  | chainStep (s : FilesState) (key : String) (outcome : Except UploadOutcomeErr Unit)
      (env : RefreshEnv) : Step s (chainStepFn s key outcome env)
  | cancelUpload (s : FilesState) (key : String) : Step s (cancelUploadFn s key)
  | clearUploading (s : FilesState) : Step s (clearUploadingFn s)
  | deleteObject (s : FilesState) (path : String) (file : Option FlatObj)
      (isFolder shouldRefresh : Bool) (env : RefreshEnv) :
      Step s (deleteObjectFn s path file isFolder shouldRefresh env).1
  | deleteObjectWithVersions (s : FilesState) (path : String) (f : FlatObj)
      (listOk : Bool) : Step s (deleteObjectWithVersionsFn s path f listOk)
  | deleteFolder (s : FilesState) (file : BrowserObject) (path : String)
      (shouldRefresh : Bool) (fuel : Nat) (tree : DirTree) (env : RefreshEnv) :
      Step s (deleteFolderFn s file path shouldRefresh fuel tree env).1
  | deleteFolderWithVersions (s : FilesState) (file : BrowserObject) (path : String)
      (fuel : Nat) (tree : DirTree) (env : RefreshEnv) :
      Step s (deleteFolderWithVersionsFn s file path fuel tree env).1
  | deleteSelected (s : FilesState) (trees : Nat → DirTree) (fuel : Nat)
      (env : RefreshEnv) : Step s (deleteSelectedFn s trees fuel env)
  | updateSelectedFiles (s : FilesState) (fs : List BrowserObject) :
      Step s (updateSelectedFilesFn s fs)
  | clear (s : FilesState) : Step s (clearFn s)

/-- States reachable from the fresh store by public operations. -/
inductive Reachable : FilesState → Prop where
  | start : Reachable initialFilesState
  | step {s s' : FilesState} : Reachable s → Step s s' → Reachable s'

/-! ### Promise-chain timing model (upload-completion FIFO)

`state.uploadChain = state.uploadChain.then(step)` builds one sequential
promise chain: the k-th completion-handling step starts exactly when the
(k-1)-st has fully finished, and runs for some duration (which includes
awaiting the upload's own completion and the listing refresh). -/

/-- Start time of the k-th chain link, given each link's duration. -/
def chainBegin (dur : Nat → Nat) : Nat → Nat
  | 0 => 0
  | k + 1 => chainBegin dur k + dur k

/-- Finish time of the k-th chain link. -/
def chainFinish (dur : Nat → Nat) (k : Nat) : Nat := chainBegin dur k + dur k

/-! ### Backend list semantics (external collaborator)

Modelled from the spec: the storage backend is an external collaborator
exposing standard delimiter-based list-objects semantics (§6); its code is
not part of this repository.  `s3ListV2Page` computes the single-page
response for a bucket given as a flat key list: `Contents` are the keys
extending the browsed path with no further delimiter, `CommonPrefixes` the
distinct first-delimiter groups, and `KeyCount` counts both. -/

/-- First-occurrence deduplication. -/
def dedupFirst : List String → List String
  | [] => []
  | x :: xs => x :: (dedupFirst xs).filter (fun y => !(y == x))

/-- The common prefix a key contributes under the browsed path, if any. -/
def keyGroupOf (pre : String) (k : String) : Option String :=
  let rest := strDrop k pre.length
  if strContainsB rest "/" then some (pre ++ dirHead rest ++ "/") else none

/-- One full (untruncated) list-objects-v2 page for bucket keys `keys`
under the browsed path `pre` with delimiter `/`. -/
def s3ListV2Page (keys : List String) (pre : String) (lm : Int) : ListV2Resp :=
  let matching := keys.filter (fun k => charsStartWith k.data pre.data)
  let contents := matching.filter (fun k => !(strContainsB (strDrop k pre.length) "/"))
  let groups := dedupFirst (matching.filterMap (keyGroupOf pre))
  { Contents := some (contents.map (fun k => { Key := k, Size := 0, LastModified := some lm }))
    CommonPrefixes := some (groups.map some)
    NextContinuationToken := none
    KeyCount := some (contents.length + groups.length) }

/-! ### Concrete scenario inputs used by the claim instances -/

/-- A state in which key `k` is already uploading. -/
def c5State : FilesState :=
  { initialFilesState with
      s3 := true
      uploading := [{ Key := "k", status := UploadingStatus.InProgress,
                      type := some FileType.file }] }

/-- A state holding one previously listed row. -/
def c6State : FilesState :=
  { initialFilesState with
      s3 := true
      files := [{ Key := "old", type := some FileType.file }] }

/-- The paginator stream: a successful first batch announcing a
continuation, then a failing fetch. -/
def c6Pages : List (Except Unit ListV2Resp) :=
  [Except.ok { Contents := some [{ Key := "new", LastModified := some 1 }],
               NextContinuationToken := some "t", KeyCount := some 1 },
   Except.error ()]

/-- A well-formed paginator stream: every batch fetched successfully, every
batch except the last carries a continuation token, and the last does not
(so the `for await` loop drains exactly these batches). -/
def wfPages : List (Except Unit ListV2Resp) → Bool
  | [] => true
  | Except.error _ :: _ => false
  | Except.ok r :: rest =>
    match r.NextContinuationToken with
    | none => rest.isEmpty
    | some _ => !rest.isEmpty && wfPages rest

/-- The backend `KeyCount` of one batch (0 for a failed fetch). -/
def pageKeyCount : Except Unit ListV2Resp → Int
  | Except.error _ => 0
  | Except.ok r => (r.KeyCount.getD 0 : Int)

/-- Scenario A bucket: keys `a/`, `a/x.txt`, `b.txt`. -/
def c9Bucket : List String := ["a/", "a/x.txt", "b.txt"]

/-- 101 non-colliding entries followed by one whose name collides. -/
def c2Entries : List TravEntry :=
  List.replicate 101 { path := "", name := "f" } ++ [{ path := "", name := "zz" }]

/-- A listed state whose only key is `zz`. -/
def c2State : FilesState :=
  { initialFilesState with
      s3 := true
      files := [{ Key := "zz", type := some FileType.file }] }

/-- Scenario B: three versions of `doc.txt`. -/
def c3Versions : List VersionRec :=
  [{ Key := "doc.txt", VersionId := some "v1", Size := 5, LastModified := some 1 },
   { Key := "doc.txt", VersionId := some "v2", Size := 6, LastModified := some 2 },
   { Key := "doc.txt", VersionId := some "v3", Size := 7, LastModified := some 3 }]

/-- Scenario B: one delete marker for `doc.txt`, the most recent entry. -/
def c3Markers : List MarkerRec :=
  [{ Key := "doc.txt", VersionId := some "m1", LastModified := some 4 }]

/-- The uploading-list invariant of claim C1: every tracked upload entry is
a file row. -/
def uploadingOnlyFiles (s : FilesState) : Prop :=
  ∀ u ∈ s.uploading, u.type = some FileType.file

/-- Trace state 1: a freshly initialized store. -/
def c1Stage1 : FilesState :=
  initFn initialFilesState
    { accessKey := "ak", bucket := "b", browserRoot := "/", openModalOnFirstUpload := true }

/-- A listing response whose only entry is the common prefix `d/`. -/
def c1Resp : ListV2Resp := { Contents := some [], CommonPrefixes := some [some "d/"] }

/-- Trace state 2: after listing, `files` holds the folder `d`. -/
def c1Stage2 : FilesState := listCustomFn c1Stage1 "" 1 false (Except.ok c1Resp) 0

/-- The folder row synthesized from the prefix `d/`. -/
def c1Folder : BrowserObject :=
  { Key := "d", path := some "", LastModified := some 0, Size := 0,
    type := some FileType.folder }

/-- Trace state 3: `deleteFolder` on the folder `d` whose recursive listing
fails — the pending-deletion mark is taken before the recursion and the
cleanup is skipped when the error propagates. -/
def c1Stage3 : FilesState :=
  (deleteFolderFn c1Stage2 c1Folder "" true 1 DirTree.failed {}).1

/-- Trace state used by the C1 witness: one enqueued upload. -/
def c1UpState : FilesState := (enqueueUploadFn c1Stage1 "k" 3 0).1

/-! ## Theorems -/

/-! ### Generic helper lemmas -/

theorem updateFirstWhere_exists {α} (p : α → Bool) (f : α → α) :
    ∀ l : List α, l.any p = true → ∃ x, p x = true ∧ f x ∈ updateFirstWhere p f l := by
  intro l h
  induction l with
  | nil => simp at h
  | cons a as ih =>
    by_cases hp : p a = true
    · exact ⟨a, hp, by simp [updateFirstWhere, hp]⟩
    · have h' : as.any p = true := by
        simp [List.any_cons, hp] at h
        simpa using h
      obtain ⟨x, hx1, hx2⟩ := ih h'
      exact ⟨x, hx1, by simp [updateFirstWhere, hp, hx2]⟩

theorem updateFirstWhere_all {α} (p : α → Bool) (f : α → α) (Q : α → Prop)
    (hf : ∀ x, Q x → Q (f x)) :
    ∀ l : List α, (∀ x ∈ l, Q x) → ∀ y ∈ updateFirstWhere p f l, Q y := by
  intro l
  induction l with
  | nil => intro _ y hy; simp [updateFirstWhere] at hy
  | cons a as ih =>
    intro hall y hy
    by_cases hp : p a = true
    · simp [updateFirstWhere, hp] at hy
      rcases hy with hy | hy
      · exact hy ▸ hf a (hall a (by simp))
      · exact hall y (by simp [hy])
    · simp [updateFirstWhere, hp] at hy
      rcases hy with hy | hy
      · exact hy ▸ hall a (by simp)
      · exact ih (fun x hx => hall x (by simp [hx])) y hy

theorem removeFirstWhere_mem {α} (p : α → Bool) :
    ∀ l : List α, ∀ y ∈ removeFirstWhere p l, y ∈ l := by
  intro l
  induction l with
  | nil => intro y hy; simp [removeFirstWhere] at hy
  | cons a as ih =>
    intro y hy
    by_cases hp : p a = true
    · simp [removeFirstWhere, hp] at hy
      simp [hy]
    · simp [removeFirstWhere, hp] at hy
      rcases hy with hy | hy
      · simp [hy]
      · simp [ih y hy]

theorem foldl_preserve {α β} (P : β → Prop) (f : β → α → β)
    (hf : ∀ b a, P b → P (f b a)) :
    ∀ (l : List α) (b : β), P b → P (l.foldl f b) := by
  intro l
  induction l with
  | nil => intro b hb; simpa using hb
  | cons a as ih => intro b hb; exact ih (f b a) (hf b a hb)

/-! ### C10 — `deleteObject` with no file argument is a complete no-op -/

/-- C10: for every state (initialized or not) and every flag combination,
`deleteObject(path, undefined, …)` returns before the initialization
assertion: the state is returned unchanged and zero transport calls are
made. -/
theorem C10_deleteObject_noop (st : FilesState) (path : String)
    (isFolder shouldRefresh : Bool) (env : RefreshEnv) :
    deleteObjectFn st path none isFolder shouldRefresh env = (st, 0) := rfl

/-! ### C7 — the upload chain is a strict FIFO of completion steps -/

theorem chainBegin_mono (dur : Nat → Nat) {a b : Nat} (h : a ≤ b) :
    chainBegin dur a ≤ chainBegin dur b := by
  induction h with
  | refl => exact Nat.le_refl _
  | step _ ih => exact Nat.le_trans ih (Nat.le_add_right _ _)

/-- C7: enqueuing appends the completion step at the tail of the chain, and
in the chain's sequential execution the completion step of any later upload
begins only after the completion step of any earlier one has fully
finished, whatever the step durations (which include the concurrently
running transfers) are. -/
theorem C7_chain_fifo (st : FilesState) (key : String) (size : Nat) (now : Int)
    (dur : Nat → Nat) (i j : Nat)
    (hs3 : st.s3 = true)
    (hfree : st.uploading.any
      (fun f => f.Key == key && f.status == UploadingStatus.InProgress) = false)
    (hsize : size ≤ uploadSizeLimit)
    (hij : i < j) :
    (enqueueUploadFn st key size now).1.uploadChain = st.uploadChain ++ [key]
    ∧ chainFinish dur i ≤ chainBegin dur j := by
  constructor
  · have hbig : ¬ size > uploadSizeLimit := Nat.not_lt.mpr hsize
    simp [enqueueUploadFn, hs3, hfree, hbig]
  · have h1 : chainFinish dur i = chainBegin dur (i + 1) := rfl
    rw [h1]
    exact chainBegin_mono dur hij

/-- Witness for C7 at a concrete fresh store, `i = 0 < 1 = j`. -/
theorem C7_witness :
    (enqueueUploadFn { initialFilesState with s3 := true } "k" 5 0).1.uploadChain
      = initialFilesState.uploadChain ++ ["k"]
    ∧ chainFinish (fun _ => 2) 0 ≤ chainBegin (fun _ => 2) 1 :=
  C7_chain_fifo { initialFilesState with s3 := true } "k" 5 0 (fun _ => 2) 0 1
    rfl (by decide) (by decide) (by decide)

/-! ### C8 — cancellation and the AbortError swallow -/

/-- C8: `cancelUpload` on a tracked key flips that entry's status to
`Cancelled`; and `handleUploadError` invoked with an `AbortError` for an
entry whose status is already `Cancelled` leaves the status and failure
message untouched and emits no notification. -/
theorem C8_cancel_swallow (st : FilesState) (key : String)
    (fm : Option FailedUploadMessage) (msg : String)
    (hfound : st.uploading.any (fun f => f.Key == key) = true) :
    (∃ u ∈ (cancelUploadFn st key).uploading,
        u.Key = key ∧ u.status = UploadingStatus.Cancelled)
    ∧ handleUploadErrorFn UploadingStatus.Cancelled fm "AbortError" msg
        = (UploadingStatus.Cancelled, fm, none) := by
  constructor
  · obtain ⟨x, hx1, hx2⟩ :=
      updateFirstWhere_exists (fun f => f.Key == key)
        (fun f => { f with status := UploadingStatus.Cancelled }) st.uploading hfound
    have hkey : x.Key = key := by simpa using hx1
    have hsome : ∃ y, st.uploading.find? (fun f => f.Key == key) = some y := by
      cases hfind : st.uploading.find? (fun f => f.Key == key) with
      | none =>
        rw [List.find?_eq_none] at hfind
        rw [List.any_eq_true] at hfound
        obtain ⟨z, hz1, hz2⟩ := hfound
        exact absurd hz2 (by simpa using hfind z hz1)
      | some y => exact ⟨y, rfl⟩
    obtain ⟨y, hy⟩ := hsome
    refine ⟨{ x with status := UploadingStatus.Cancelled }, ?_, by simpa using hkey, rfl⟩
    simp only [cancelUploadFn, hy]
    exact hx2
  · rfl

/-- Witness for C8: one in-progress entry with key `k`. -/
theorem C8_witness :
    (∃ u ∈ (cancelUploadFn
        { initialFilesState with
            uploading := [{ Key := "k", status := UploadingStatus.InProgress,
                            type := some FileType.file }] } "k").uploading,
        u.Key = "k" ∧ u.status = UploadingStatus.Cancelled)
    ∧ handleUploadErrorFn UploadingStatus.Cancelled none "AbortError" "boom"
        = (UploadingStatus.Cancelled, none, none) :=
  C8_cancel_swallow
    { initialFilesState with
        uploading := [{ Key := "k", status := UploadingStatus.InProgress,
                        type := some FileType.file }] } "k" none "boom" (by decide)

/-! ### C5 — the 30 GiB size ceiling -/

/-- C5 counterexample: a file one byte over the ceiling whose key is
already in progress is rejected by the "already uploading" guard before
the size check, so no `Failed`/`TooBig` entry is ever recorded for it —
contradicting the claim's unconditional "is immediately recorded … with
status Failed and failedMessage TooBig". -/
theorem C5_counterexample :
    (enqueueUploadFn c5State "k" (uploadSizeLimit + 1) 0).1 = c5State
    ∧ ¬ ∃ u ∈ (enqueueUploadFn c5State "k" (uploadSizeLimit + 1) 0).1.uploading,
        u.status = UploadingStatus.Failed
        ∧ u.failedMessage = some FailedUploadMessage.TooBig := by
  constructor
  · decide
  · decide

/-- C5 (amended): provided the store is initialized and no upload for the
key is currently in progress, a body strictly larger than 30 GiB is
immediately recorded as `Failed`/`TooBig` and no transfer is started,
while a body of at most 30 GiB (in particular exactly 30 GiB) is handed to
the transport layer as an `InProgress` entry. -/
theorem C5_amended (st : FilesState) (key : String) (size : Nat) (now : Int)
    (hs3 : st.s3 = true)
    (hfree : st.uploading.any
      (fun f => f.Key == key && f.status == UploadingStatus.InProgress) = false) :
    (size > uploadSizeLimit →
      (enqueueUploadFn st key size now).2 = false
      ∧ ∃ u ∈ (enqueueUploadFn st key size now).1.uploading,
          u.Key = key ∧ u.status = UploadingStatus.Failed
          ∧ u.failedMessage = some FailedUploadMessage.TooBig)
    ∧ (size ≤ uploadSizeLimit →
      (enqueueUploadFn st key size now).2 = true
      ∧ ∃ u ∈ (enqueueUploadFn st key size now).1.uploading,
          u.Key = key ∧ u.status = UploadingStatus.InProgress) := by
  constructor
  · intro h
    refine ⟨?_, ?_⟩
    · simp [enqueueUploadFn, hs3, hfree, decide_eq_true h]
    · simp only [enqueueUploadFn, hs3, hfree, Bool.not_true, Bool.false_eq_true, if_false,
        decide_eq_true h, if_true, List.mem_append, List.mem_singleton]
      exact ⟨_, Or.inr rfl, rfl, rfl, rfl⟩
  · intro h
    have hbig : ¬ size > uploadSizeLimit := Nat.not_lt.mpr h
    refine ⟨?_, ?_⟩
    · simp [enqueueUploadFn, hs3, hfree, decide_eq_false hbig]
    · simp only [enqueueUploadFn, hs3, hfree, Bool.not_true, Bool.false_eq_true, if_false,
        decide_eq_false hbig, if_true, List.mem_append, List.mem_singleton]
      exact ⟨_, Or.inr rfl, rfl, rfl⟩

/-- Witness for C5 (amended) on a fresh initialized store: exactly the
ceiling is accepted, one byte over is recorded `Failed`/`TooBig` with no
transfer. -/
theorem C5_witness :
    ((enqueueUploadFn { initialFilesState with s3 := true } "k" (uploadSizeLimit + 1) 0).2 = false
      ∧ ∃ u ∈ (enqueueUploadFn { initialFilesState with s3 := true } "k"
            (uploadSizeLimit + 1) 0).1.uploading,
          u.Key = "k" ∧ u.status = UploadingStatus.Failed
          ∧ u.failedMessage = some FailedUploadMessage.TooBig)
    ∧ ((enqueueUploadFn { initialFilesState with s3 := true } "k" uploadSizeLimit 0).2 = true
      ∧ ∃ u ∈ (enqueueUploadFn { initialFilesState with s3 := true } "k"
            uploadSizeLimit 0).1.uploading,
          u.Key = "k" ∧ u.status = UploadingStatus.InProgress) :=
  ⟨(C5_amended { initialFilesState with s3 := true } "k" (uploadSizeLimit + 1) 0
      rfl (by decide)).1 (by omega),
   (C5_amended { initialFilesState with s3 := true } "k" uploadSizeLimit 0
      rfl (by decide)).2 (Nat.le_refl _)⟩

/-! ### C6 — listing errors and the `files` snapshot -/

/-- C6 counterexample: `initList` captures the first batch into `files`
before draining the rest, so a transport error on the second batch leaves
`files` holding the new first batch — not the snapshot held before the
attempt began, contradicting the claim for `initList`. -/
theorem C6_counterexample :
    (initListFn c6State "" c6Pages 0).files ≠ c6State.files := by decide

theorem initListLoop_files_of_two_le (path : String) (now : Int) :
    ∀ (pages : List (Except Unit ListV2Resp)) (st : FilesState) (it : Nat) (kc : Int)
      (st2 : FilesState) (res : Option Int),
      initListLoop path now pages st it kc = (st2, res) → 2 ≤ it → st2.files = st.files := by
  intro pages
  induction pages with
  | nil =>
    intro st it kc st2 res heq h
    simp only [initListLoop] at heq
    cases heq
    rfl
  | cons p rest ih =>
    intro st it kc st2 res heq h
    match p with
    | Except.error u =>
      simp only [initListLoop] at heq
      cases heq
      rfl
    | Except.ok r =>
      have hit : (it == 1) = false := by
        simp only [beq_eq_false_iff_ne, ne_eq]
        omega
      simp only [initListLoop, hit, Bool.false_eq_true, if_false] at heq
      cases htok : r.NextContinuationToken with
      | none =>
        simp only [htok] at heq
        cases heq
        rfl
      | some tok =>
        simp only [htok] at heq
        have h2 := ih _ (it + 1) _ _ _ heq (by omega)
        simpa using h2

/-- C6 (amended): a transport error leaves `files` exactly as before the
attempt for `listCustom`, `listByToken` and `listAllVersions` (for the
first two the whole state is untouched); for `initList`, `files` is either
the pre-attempt snapshot (the error hit the first batch) or the fully
processed first batch (the error hit a later count-draining batch) — never
a partially built array. -/
theorem C6_amended :
    (∀ (st : FilesState) (path : String) (page : Nat) (save : Bool) (now : Int),
      listCustomFn st path page save (Except.error ()) now = st)
    ∧ (∀ (st : FilesState) (path : String) (key : Int) (now : Int),
      listByTokenFn st path key (Except.error ()) now = st)
    ∧ (∀ (st : FilesState) (path : String) (page : Nat) (save : Bool) (now : Int),
      (listAllVersionsFn st path page save (Except.error ()) now).files = st.files)
    ∧ (∀ (st : FilesState) (path : String) (pages : List (Except Unit ListV2Resp)) (now : Int),
      (initListFn st path pages now).files = st.files
      ∨ ∃ r rest, pages = Except.ok r :: rest
          ∧ (initListFn st path pages now).files = newFilesOf path r.Contents r.CommonPrefixes now) := by
  refine ⟨?_, ?_, ?_, ?_⟩
  · intro st path page save now
    cases h : st.s3 <;> simp [listCustomFn, h]
  · intro st path key now
    cases h : st.s3 <;> simp [listByTokenFn, h]
  · intro st path page save now
    cases h : st.s3 <;> simp [listAllVersionsFn, h]
  · intro st path pages now
    cases h : st.s3 with
    | false => left; simp [initListFn, h]
    | true =>
      match pages with
      | [] => left; simp [initListFn, initListLoop, h]
      | Except.error u :: rest => left; simp [initListFn, initListLoop, h]
      | Except.ok r :: rest =>
        right
        refine ⟨r, rest, rfl, ?_⟩
        simp only [initListFn, h, Bool.not_true, Bool.false_eq_true, if_false]
        simp only [initListLoop, beq_self_eq_true, if_true]
        cases htok : r.NextContinuationToken with
        | none => rfl
        | some tok =>
          split
          next st1 kc heq =>
            have hst1 := initListLoop_files_of_two_le path now rest _ 2 _ _ _ heq (by omega)
            simpa [processFetchedObjectsFn] using hst1
          next st1 heq =>
            have hst1 := initListLoop_files_of_two_le path now rest _ 2 _ _ _ heq (by omega)
            simpa [processFetchedObjectsFn] using hst1

/-! ### C9 — `totalObjectCount` computed by `initList` -/

/-- C9 counterexample (Scenario A, prefix `a/`): the page for prefix `a/`
over bucket `a/`, `a/x.txt`, `b.txt` has `KeyCount` 2 (`a/` and
`a/x.txt`), so after the non-root decrement `totalObjectCount` is 1, not 0
as the claim states — while `files` does contain exactly the file
`x.txt`. -/
theorem C9_counterexample :
    (initListFn { initialFilesState with s3 := true } "a/"
        [Except.ok (s3ListV2Page c9Bucket "a/" 0)] 0).totalObjectCount ≠ 0
    ∧ (initListFn { initialFilesState with s3 := true } "a/"
        [Except.ok (s3ListV2Page c9Bucket "a/" 0)] 0).totalObjectCount = 1
    ∧ (initListFn { initialFilesState with s3 := true } "a/"
        [Except.ok (s3ListV2Page c9Bucket "a/" 0)] 0).files
      = [{ Key := "x.txt", Size := 0, LastModified := some 0,
           type := some FileType.file, path := some "a/" }] := by
  refine ⟨by decide, by decide, by decide⟩

theorem initListLoop_count (path : String) (now : Int) :
    ∀ (pages : List (Except Unit ListV2Resp)) (st : FilesState) (it : Nat) (kc : Int)
      (st2 : FilesState) (res : Option Int),
      wfPages pages = true → initListLoop path now pages st it kc = (st2, res) →
      res = some (kc + (pages.map pageKeyCount).sum) := by
  intro pages
  induction pages with
  | nil =>
    intro st it kc st2 res hwf heq
    simp only [initListLoop] at heq
    cases heq
    simp
  | cons p rest ih =>
    intro st it kc st2 res hwf heq
    match p with
    | Except.error u => simp [wfPages] at hwf
    | Except.ok r =>
      cases htok : r.NextContinuationToken with
      | none =>
        have hrest : rest = [] := by
          simp [wfPages, htok, List.isEmpty_iff] at hwf
          exact hwf
        subst hrest
        simp only [initListLoop, htok] at heq
        cases heq
        simp [pageKeyCount]
      | some tok =>
        have hwf' : wfPages rest = true := by
          simp [wfPages, htok] at hwf
          exact hwf.2
        simp only [initListLoop, htok] at heq
        have h := ih _ (it + 1) _ _ _ hwf' heq
        rw [h]
        simp [pageKeyCount, Int.add_assoc]

/-- C9 (amended): over any well-formed drained paginator stream,
`totalObjectCount` equals the sum of the backend `KeyCount`s of all
batches, decremented by exactly one if and only if the browsed path is
non-empty; in Scenario A (bucket `a/`, `a/x.txt`, `b.txt`), browsing `a/`
yields exactly the file `x.txt` and a count of 1 after the decrement. -/
theorem C9_amended (st : FilesState) (path : String)
    (pages : List (Except Unit ListV2Resp)) (now : Int)
    (hs3 : st.s3 = true) (hwf : wfPages pages = true) :
    (initListFn st path pages now).totalObjectCount
      = (pages.map pageKeyCount).sum - (if path = "" then 0 else 1) := by
  simp only [initListFn, hs3, Bool.not_true, Bool.false_eq_true, if_false]
  split
  next st1 kc heq =>
    have h := initListLoop_count path now pages st 1 0 st1 (some kc) hwf heq
    injection h with h
    simp [h]
  next st1 heq =>
    have h := initListLoop_count path now pages st 1 0 st1 none hwf heq
    simp at h

/-- Witness for C9 (amended) at Scenario A, prefix `a/`. -/
theorem C9_witness :
    (initListFn { initialFilesState with s3 := true } "a/"
        [Except.ok (s3ListV2Page c9Bucket "a/" 0)] 0).totalObjectCount
      = ([Except.ok (s3ListV2Page c9Bucket "a/" 0)].map pageKeyCount).sum
          - (if "a/" = "" then 0 else 1) :=
  C9_amended { initialFilesState with s3 := true } "a/"
    [Except.ok (s3ListV2Page c9Bucket "a/" 0)] 0 rfl (by decide)

/-! ### C2 — duplicate detection in `upload` -/

/-- C2 counterexample: with 101 non-colliding candidates followed by a
colliding one, the loop consumes all 102 entries — the `traversedCount ===
100` stop is only checked when a collision is found at exactly that count,
so the scan does not stop after inspecting at most 100 candidates.  The
batch is still aborted with the colliding name and nothing is enqueued. -/
theorem C2_counterexample :
    (∃ e ∈ c2Entries, hasDupB ["zz"] e = true)
    ∧ (scanAux ["zz"] false c2Entries [] 0).2.2 = 102
    ∧ ¬ ((scanAux ["zz"] false c2Entries [] 0).2.2 ≤ 100)
    ∧ uploadFn c2State false c2Entries 0
        = Except.error (UploadErr.duplicate ["zz"]) := by
  refine ⟨by decide, by decide, by decide, by decide⟩

theorem scanAux_dups_le (fns : List String) :
    ∀ (entries : List TravEntry) (dups : List String) (tc : Nat),
      dups.length ≤ 5 → ((scanAux fns false entries dups tc).2.1).length ≤ 5 := by
  intro entries
  induction entries with
  | nil => intro dups tc h; simpa [scanAux] using h
  | cons e rest ih =>
    intro dups tc h
    by_cases h5 : dups.length < 5
    · by_cases hd : hasDupB fns e = true
      · by_cases hb : ((dups ++ [e.path ++ e.name]).length == 5 || tc == 100) = true
        · simp only [scanAux, Bool.not_false, Bool.true_and, decide_eq_true h5, hd,
            Bool.and_self, if_true, hb]
          simp
          omega
        · simp only [scanAux, Bool.not_false, Bool.true_and, decide_eq_true h5, hd,
            Bool.and_self, if_true, hb, Bool.false_eq_true, if_false]
          exact ih _ _ (by simp; omega)
      · simp only [scanAux, Bool.not_false, Bool.true_and, hd, Bool.and_false,
          Bool.false_eq_true, if_false]
        exact ih _ _ h
    · have hdec : decide (dups.length < 5) = false := decide_eq_false h5
      simp only [scanAux, Bool.not_false, Bool.true_and, hdec, Bool.false_and,
        Bool.false_eq_true, if_false]
      exact ih _ _ h

theorem scanAux_dups_spec (fns : List String) :
    ∀ (entries : List TravEntry) (dups : List String) (tc : Nat),
      ∃ extra, (scanAux fns false entries dups tc).2.1 = dups ++ extra
        ∧ ∀ d ∈ extra, ∃ e ∈ entries, hasDupB fns e = true ∧ d = e.path ++ e.name := by
  intro entries
  induction entries with
  | nil => intro dups tc; exact ⟨[], by simp [scanAux], by simp⟩
  | cons e rest ih =>
    intro dups tc
    by_cases h5 : dups.length < 5
    · by_cases hd : hasDupB fns e = true
      · by_cases hb : ((dups ++ [e.path ++ e.name]).length == 5 || tc == 100) = true
        · refine ⟨[e.path ++ e.name], ?_, ?_⟩
          · simp only [scanAux, Bool.not_false, Bool.true_and, decide_eq_true h5, hd,
              Bool.and_self, if_true, hb]
          · intro d hdm
            simp at hdm
            exact ⟨e, by simp, hd, hdm⟩
        · obtain ⟨extra, hex, hsound⟩ := ih (dups ++ [e.path ++ e.name]) (tc + 1)
          refine ⟨[e.path ++ e.name] ++ extra, ?_, ?_⟩
          · simp only [scanAux, Bool.not_false, Bool.true_and, decide_eq_true h5, hd,
              Bool.and_self, if_true, hb, Bool.false_eq_true, if_false]
            simpa using hex
          · intro d hdm
            simp only [List.mem_append, List.mem_singleton] at hdm
            rcases hdm with hdm | hdm
            · exact ⟨e, by simp, hd, hdm⟩
            · obtain ⟨e2, he2, h1, h2⟩ := hsound d hdm
              exact ⟨e2, by simp [he2], h1, h2⟩
      · obtain ⟨extra, hex, hsound⟩ := ih dups (tc + 1)
        refine ⟨extra, ?_, ?_⟩
        · simp only [scanAux, Bool.not_false, Bool.true_and, hd, Bool.and_false,
            Bool.false_eq_true, if_false]
          exact hex
        · intro d hdm
          obtain ⟨e2, he2, h1, h2⟩ := hsound d hdm
          exact ⟨e2, by simp [he2], h1, h2⟩
    · have hdec : decide (dups.length < 5) = false := decide_eq_false h5
      obtain ⟨extra, hex, hsound⟩ := ih dups (tc + 1)
      refine ⟨extra, ?_, ?_⟩
      · simp only [scanAux, Bool.not_false, Bool.true_and, hdec, Bool.false_and,
          Bool.false_eq_true, if_false]
        exact hex
      · intro d hdm
        obtain ⟨e2, he2, h1, h2⟩ := hsound d hdm
        exact ⟨e2, by simp [he2], h1, h2⟩

theorem scanAux_dups_of_collision (fns : List String) :
    ∀ (entries : List TravEntry) (dups : List String) (tc : Nat),
      dups.length < 5 → (∃ e ∈ entries, hasDupB fns e = true) →
      (scanAux fns false entries dups tc).2.1 ≠ [] := by
  intro entries
  induction entries with
  | nil => intro dups tc _ hcol; simp at hcol
  | cons e rest ih =>
    intro dups tc h5 hcol
    by_cases hd : hasDupB fns e = true
    · by_cases hb : ((dups ++ [e.path ++ e.name]).length == 5 || tc == 100) = true
      · simp only [scanAux, Bool.not_false, Bool.true_and, decide_eq_true h5, hd,
          Bool.and_self, if_true, hb]
        simp
      · simp only [scanAux, Bool.not_false, Bool.true_and, decide_eq_true h5, hd,
          Bool.and_self, if_true, hb, Bool.false_eq_true, if_false]
        obtain ⟨extra, hex, _⟩ := scanAux_dups_spec fns rest (dups ++ [e.path ++ e.name]) (tc + 1)
        rw [hex]
        simp
    · have hcol' : ∃ e2 ∈ rest, hasDupB fns e2 = true := by
        obtain ⟨e2, he2, h2⟩ := hcol
        simp only [List.mem_cons] at he2
        rcases he2 with he2 | he2
        · exact absurd (he2 ▸ h2) (by simpa using hd)
        · exact ⟨e2, he2, h2⟩
      simp only [scanAux, Bool.not_false, Bool.true_and, hd, Bool.and_false,
        Bool.false_eq_true, if_false]
      exact ih dups (tc + 1) h5 hcol'

/-- C2 (amended): for an upload batch with `ignoreDuplicate` false in which
some traversed entry collides with the listed keys, `upload` throws
`DuplicateUploadError` carrying a non-empty list of at most five colliding
relative names and enqueues nothing (the error is raised before the
enqueue loop, so no transfer starts).  The scan stops early only upon
collecting the fifth name or upon finding a collision at exactly the
100-candidate mark; otherwise it inspects the whole batch. -/
theorem C2_amended (st : FilesState) (entries : List TravEntry) (now : Int)
    (hs3 : st.s3 = true)
    (hcol : ∃ e ∈ entries, hasDupB (st.files.map (fun f => f.Key)) e = true) :
    ∃ dups, uploadFn st false entries now = Except.error (UploadErr.duplicate dups)
      ∧ dups ≠ [] ∧ dups.length ≤ 5
      ∧ ∀ d ∈ dups, ∃ e ∈ entries,
          hasDupB (st.files.map (fun f => f.Key)) e = true ∧ d = e.path ++ e.name := by
  have hne := scanAux_dups_of_collision (st.files.map (fun f => f.Key)) entries [] 0
    (by simp) hcol
  have hle := scanAux_dups_le (st.files.map (fun f => f.Key)) entries [] 0 (by simp)
  obtain ⟨extra, hex, hsound⟩ :=
    scanAux_dups_spec (st.files.map (fun f => f.Key)) entries [] 0
  refine ⟨(scanAux (st.files.map (fun f => f.Key)) false entries [] 0).2.1, ?_, hne, hle, ?_⟩
  · have hpos : 0 < ((scanAux (st.files.map (fun f => f.Key)) false entries [] 0).2.1).length :=
      List.length_pos.mpr hne
    simp only [uploadFn, hs3, Bool.not_true, Bool.false_eq_true, if_false,
      decide_eq_true hpos, if_true]
  · intro d hd
    rw [hex] at hd
    simp only [List.nil_append] at hd
    exact hsound d hd

/-- Witness for C2 (amended): one entry colliding with the single listed
key `zz`. -/
theorem C2_witness :
    ∃ dups, uploadFn c2State false [{ path := "", name := "zz" }] 0
        = Except.error (UploadErr.duplicate dups)
      ∧ dups ≠ [] ∧ dups.length ≤ 5
      ∧ ∀ d ∈ dups, ∃ e ∈ [({ path := "", name := "zz" } : TravEntry)],
          hasDupB (c2State.files.map (fun f => f.Key)) e = true ∧ d = e.path ++ e.name :=
  C2_amended c2State [{ path := "", name := "zz" }] 0 rfl
    ⟨{ path := "", name := "zz" }, by decide, by decide⟩

/-! ### C4 — `processFetchedObjects` ordering -/

theorem insertAsc_perm (x : S3Obj) : ∀ l : List S3Obj, (insertAsc x l).Perm (x :: l) := by
  intro l
  induction l with
  | nil => simp [insertAsc]
  | cons y ys ih =>
    by_cases hc : contentsCmpLT y x = true
    · simp only [insertAsc, hc, if_true]
      exact (ih.cons y).trans (List.Perm.swap x y ys)
    · simp [insertAsc, hc]

theorem sortContents_perm : ∀ l : List S3Obj, (sortContents l).Perm l := by
  intro l
  induction l with
  | nil => simp [sortContents]
  | cons x xs ih => exact (insertAsc_perm x (sortContents xs)).trans (ih.cons x)

theorem mem_insertAsc {z x : S3Obj} {l : List S3Obj} (h : z ∈ insertAsc x l) :
    z = x ∨ z ∈ l := by
  have := (insertAsc_perm x l).mem_iff.mp h
  simpa using this

theorem insertAsc_pairwise (x : S3Obj) :
    ∀ l : List S3Obj, (∀ o ∈ x :: l, o.LastModified.isSome = true) →
      List.Pairwise (fun a b => slmOf a ≤ slmOf b) l →
      List.Pairwise (fun a b => slmOf a ≤ slmOf b) (insertAsc x l) := by
  intro l
  induction l with
  | nil => intro _ _; simp [insertAsc]
  | cons y ys ih =>
    intro hdef hp
    rcases List.pairwise_cons.mp hp with ⟨hyall, hys⟩
    by_cases hc : contentsCmpLT y x = true
    · have hyx : slmOf y ≤ slmOf x := by
        unfold contentsCmpLT at hc
        unfold slmOf
        cases hy : y.LastModified with
        | none => rw [hy] at hc; simp at hc
        | some a =>
          cases hx : x.LastModified with
          | none => rw [hy, hx] at hc; simp at hc
          | some b =>
            rw [hy, hx] at hc
            simp at hc
            simp
            omega
      simp only [insertAsc, hc, if_true]
      refine List.pairwise_cons.mpr ⟨?_, ?_⟩
      · intro z hz
        rcases mem_insertAsc hz with hz | hz
        · exact hz ▸ hyx
        · exact hyall z hz
      · refine ih ?_ hys
        intro o ho
        simp only [List.mem_cons] at ho
        rcases ho with ho | ho
        · exact hdef o (by simp [ho])
        · exact hdef o (by simp [ho])
    · have hxy : slmOf x ≤ slmOf y := by
        have hxs : x.LastModified.isSome = true := hdef x (by simp)
        have hys' : y.LastModified.isSome = true := hdef y (by simp)
        unfold contentsCmpLT at hc
        unfold slmOf
        cases hy : y.LastModified with
        | none => rw [hy] at hys'; simp at hys'
        | some a =>
          cases hx : x.LastModified with
          | none => rw [hx] at hxs; simp at hxs
          | some b =>
            rw [hy, hx] at hc
            simp at hc
            simpa using hc
      simp only [insertAsc, hc, Bool.false_eq_true, if_false]
      refine List.pairwise_cons.mpr ⟨?_, hp⟩
      intro z hz
      simp only [List.mem_cons] at hz
      rcases hz with hz | hz
      · exact hz ▸ hxy
      · exact le_trans hxy (hyall z hz)

theorem sortContents_pairwise :
    ∀ l : List S3Obj, (∀ o ∈ l, o.LastModified.isSome = true) →
      List.Pairwise (fun a b => slmOf a ≤ slmOf b) (sortContents l) := by
  intro l
  induction l with
  | nil => intro _; simp [sortContents]
  | cons x xs ih =>
    intro hdef
    refine insertAsc_pairwise x (sortContents xs) ?_ (ih ?_)
    · intro o ho
      simp only [List.mem_cons] at ho
      rcases ho with ho | ho
      · exact ho ▸ hdef x (by simp)
      · exact hdef o (by simp [(sortContents_perm xs).mem_iff.mp ho])
    · intro o ho
      exact hdef o (by simp [ho])

theorem filter_insertAsc (x : S3Obj) (t : Int) :
    ∀ l : List S3Obj,
      (insertAsc x l).filter (fun o => o.LastModified == some t)
        = if x.LastModified == some t then
            x :: l.filter (fun o => o.LastModified == some t)
          else l.filter (fun o => o.LastModified == some t) := by
  intro l
  induction l with
  | nil =>
    cases hx : (x.LastModified == some t) <;> simp [insertAsc, List.filter, hx]
  | cons y ys ih =>
    by_cases hc : contentsCmpLT y x = true
    · simp only [insertAsc, hc, if_true]
      by_cases hx : (x.LastModified == some t) = true
      · have hyne : (y.LastModified == some t) = false := by
          unfold contentsCmpLT at hc
          cases hy : y.LastModified with
          | none => rw [hy] at hc; simp at hc
          | some a =>
            cases hx2 : x.LastModified with
            | none => rw [hy, hx2] at hc; simp at hc
            | some b =>
              rw [hx2] at hx
              rw [hy, hx2] at hc
              simp at hc hx
              simp
              omega
        rw [List.filter_cons, List.filter_cons]
        simp only [hyne, Bool.false_eq_true, if_false]
        rw [ih]
      · have hx' : (x.LastModified == some t) = false := by
          simpa using hx
        rw [List.filter_cons, List.filter_cons]
        rw [ih]
        simp only [hx', Bool.false_eq_true, if_false]
    · simp only [insertAsc, hc, Bool.false_eq_true, if_false]
      by_cases hx : (x.LastModified == some t) = true
      · rw [List.filter_cons]
      · have hx' : (x.LastModified == some t) = false := by simpa using hx
        rw [List.filter_cons]

theorem sortContents_filter_stable (t : Int) :
    ∀ l : List S3Obj,
      (sortContents l).filter (fun o => o.LastModified == some t)
        = l.filter (fun o => o.LastModified == some t) := by
  intro l
  induction l with
  | nil => rfl
  | cons x xs ih =>
    show (insertAsc x (sortContents xs)).filter _ = _
    rw [filter_insertAsc, List.filter_cons]
    by_cases hx : (x.LastModified == some t) = true
    · simp [hx, ih]
    · have hx' : (x.LastModified == some t) = false := by simpa using hx
      simp [hx', ih]

/-- C4: for every listing refresh, the produced `files` array is exactly
the common-prefix folder entries followed by the visible file entries;
every entry of the first segment is a folder and of the second a file
(folders-first holds regardless of file ordering); when all `LastModified`
stamps are defined, the file segment is ascending by modification time and
is a permutation of the processed visible contents (sorting precedes the
folder/file split); and the sort is stable: entries sharing a modification
time keep their response order.  Determinism is immediate (the model is a
function of the response). -/
theorem C4_listing_order (path : String) (contentsO : Option (List S3Obj))
    (prefixesO : Option (List (Option String))) (now : Int)
    (hdef : ∀ o ∈ contentsO.getD [], o.LastModified.isSome = true) :
    newFilesOf path contentsO prefixesO now
      = ((prefixesO.getD []).filterMap (fun p? => p?.map (prefixToFolder path now)))
        ++ (((sortContents (contentsO.getD [])).map (makeFileRelative path)).filter
              (fun f => isVisibleKey f.Key))
    ∧ (∀ f ∈ (prefixesO.getD []).filterMap (fun p? => p?.map (prefixToFolder path now)),
        f.type = some FileType.folder)
    ∧ (∀ f ∈ ((sortContents (contentsO.getD [])).map (makeFileRelative path)).filter
          (fun f => isVisibleKey f.Key), f.type = some FileType.file)
    ∧ List.Pairwise (fun a b => lmOf a ≤ lmOf b)
        (((sortContents (contentsO.getD [])).map (makeFileRelative path)).filter
          (fun f => isVisibleKey f.Key))
    ∧ (((sortContents (contentsO.getD [])).map (makeFileRelative path)).filter
          (fun f => isVisibleKey f.Key)).Perm
        (((contentsO.getD []).map (makeFileRelative path)).filter
          (fun f => isVisibleKey f.Key))
    ∧ ∀ t : Int, (sortContents (contentsO.getD [])).filter (fun o => o.LastModified == some t)
          = (contentsO.getD []).filter (fun o => o.LastModified == some t) := by
  refine ⟨rfl, ?_, ?_, ?_, ?_, ?_⟩
  · intro f hf
    simp only [List.mem_filterMap] at hf
    obtain ⟨p?, _, hp⟩ := hf
    cases p? with
    | none => exact Option.noConfusion hp
    | some p =>
      injection hp with hp2
      cases hp2
      rfl
  · intro f hf
    have hf' := List.mem_of_mem_filter hf
    simp only [List.mem_map] at hf'
    obtain ⟨o, _, ho⟩ := hf'
    cases ho
    rfl
  · have hsorted := sortContents_pairwise (contentsO.getD []) hdef
    have hmap : List.Pairwise (fun a b => lmOf a ≤ lmOf b)
        ((sortContents (contentsO.getD [])).map (makeFileRelative path)) := by
      refine List.Pairwise.map (makeFileRelative path) ?_ hsorted
      intro a b hab
      simpa [lmOf, makeFileRelative, slmOf] using hab
    exact hmap.sublist (List.filter_sublist _)
  · exact ((sortContents_perm (contentsO.getD [])).map (makeFileRelative path)).filter _
  · exact fun t => sortContents_filter_stable t (contentsO.getD [])

/-- Witness for C4 on a two-file response with one common prefix. -/
theorem C4_witness :
    newFilesOf "" (some [{ Key := "b", LastModified := some 2 },
                         { Key := "a", LastModified := some 1 }])
        (some [some "d/"]) 7
      = (((some [some "d/"] : Option (List (Option String))).getD []).filterMap
            (fun p? => p?.map (prefixToFolder "" 7)))
        ++ (((sortContents ((some [{ Key := "b", LastModified := some 2 },
                { Key := "a", LastModified := some 1 }] : Option (List S3Obj)).getD [])).map
              (makeFileRelative "")).filter (fun f => isVisibleKey f.Key))
    ∧ (∀ f ∈ ((some [some "d/"] : Option (List (Option String))).getD []).filterMap
          (fun p? => p?.map (prefixToFolder "" 7)), f.type = some FileType.folder)
    ∧ (∀ f ∈ (((sortContents ((some [{ Key := "b", LastModified := some 2 },
            { Key := "a", LastModified := some 1 }] : Option (List S3Obj)).getD [])).map
          (makeFileRelative "")).filter (fun f => isVisibleKey f.Key)),
        f.type = some FileType.file)
    ∧ List.Pairwise (fun a b => lmOf a ≤ lmOf b)
        (((sortContents ((some [{ Key := "b", LastModified := some 2 },
            { Key := "a", LastModified := some 1 }] : Option (List S3Obj)).getD [])).map
          (makeFileRelative "")).filter (fun f => isVisibleKey f.Key))
    ∧ ((((sortContents ((some [{ Key := "b", LastModified := some 2 },
            { Key := "a", LastModified := some 1 }] : Option (List S3Obj)).getD [])).map
          (makeFileRelative "")).filter (fun f => isVisibleKey f.Key))).Perm
        ((((some [{ Key := "b", LastModified := some 2 },
            { Key := "a", LastModified := some 1 }] : Option (List S3Obj)).getD []).map
          (makeFileRelative "")).filter (fun f => isVisibleKey f.Key))
    ∧ ∀ t : Int,
        (sortContents ((some [{ Key := "b", LastModified := some 2 },
            { Key := "a", LastModified := some 1 }] : Option (List S3Obj)).getD [])).filter
          (fun o => o.LastModified == some t)
        = (((some [{ Key := "b", LastModified := some 2 },
            { Key := "a", LastModified := some 1 }] : Option (List S3Obj)).getD [])).filter
          (fun o => o.LastModified == some t) :=
  C4_listing_order ""
    (some [{ Key := "b", LastModified := some 2 }, { Key := "a", LastModified := some 1 }])
    (some [some "d/"]) 7 (by decide)

/-! ### C3 — version grouping -/

theorem insertDesc_perm (x : FlatObj) : ∀ l : List FlatObj, (insertDesc x l).Perm (x :: l) := by
  intro l
  induction l with
  | nil => simp [insertDesc]
  | cons y ys ih =>
    by_cases hc : (decide (vTime x < vTime y)) = true
    · simp only [insertDesc, hc, if_true]
      exact (ih.cons y).trans (List.Perm.swap x y ys)
    · simp [insertDesc, hc]

theorem sortVersionsDesc_perm : ∀ l : List FlatObj, (sortVersionsDesc l).Perm l := by
  intro l
  induction l with
  | nil => simp [sortVersionsDesc]
  | cons x xs ih => exact (insertDesc_perm x (sortVersionsDesc xs)).trans (ih.cons x)

theorem mem_insertDesc {z x : FlatObj} {l : List FlatObj} (h : z ∈ insertDesc x l) :
    z = x ∨ z ∈ l := by
  have := (insertDesc_perm x l).mem_iff.mp h
  simpa using this

theorem insertDesc_pairwise (x : FlatObj) :
    ∀ l : List FlatObj,
      List.Pairwise (fun a b => vTime b ≤ vTime a) l →
      List.Pairwise (fun a b => vTime b ≤ vTime a) (insertDesc x l) := by
  intro l
  induction l with
  | nil => intro _; simp [insertDesc]
  | cons y ys ih =>
    intro hp
    rcases List.pairwise_cons.mp hp with ⟨hyall, hys⟩
    by_cases hc : (decide (vTime x < vTime y)) = true
    · have hxy : vTime x ≤ vTime y := le_of_lt (of_decide_eq_true hc)
      simp only [insertDesc, hc, if_true]
      refine List.pairwise_cons.mpr ⟨?_, ih hys⟩
      intro z hz
      rcases mem_insertDesc hz with hz | hz
      · exact hz ▸ hxy
      · exact hyall z hz
    · have hyx : vTime y ≤ vTime x := le_of_not_lt (of_decide_eq_false (by simpa using hc))
      simp only [insertDesc, hc, Bool.false_eq_true, if_false]
      refine List.pairwise_cons.mpr ⟨?_, hp⟩
      intro z hz
      simp only [List.mem_cons] at hz
      rcases hz with hz | hz
      · exact hz ▸ hyx
      · exact le_trans (hyall z hz) hyx

theorem sortVersionsDesc_pairwise :
    ∀ l : List FlatObj, List.Pairwise (fun a b => vTime b ≤ vTime a) (sortVersionsDesc l) := by
  intro l
  induction l with
  | nil => simp [sortVersionsDesc]
  | cons x xs ih => exact insertDesc_pairwise x (sortVersionsDesc xs) ih

theorem pairwise_headD_max {l : List FlatObj}
    (hp : List.Pairwise (fun a b => vTime b ≤ vTime a) l) :
    ∀ v ∈ l, vTime v ≤ vTime (l.headD {}) := by
  cases l with
  | nil => intro v hv; simp at hv
  | cons a as =>
    intro v hv
    rcases List.pairwise_cons.mp hp with ⟨hall, _⟩
    simp only [List.mem_cons] at hv
    rcases hv with hv | hv
    · simp [hv]
    · simpa using hall v hv

theorem keysAny_false_forall {gs : List (String × List FlatObj)} {k : String}
    (h : gs.any (fun p => p.1 == k) = false) : ∀ p ∈ gs, p.1 ≠ k := by
  intro p hp heq
  rw [List.any_eq_false] at h
  exact h p hp (by simp [heq])

theorem pushGroup_filter_inv (o : FlatObj) (gs : List (String × List FlatObj))
    (seen : List FlatObj)
    (h1 : ∀ p ∈ gs, p.2 = seen.filter (fun x => x.Key == p.1))
    (h2 : ∀ k : String, gs.any (fun p => p.1 == k) = false →
      seen.filter (fun x => x.Key == k) = []) :
    (∀ q ∈ pushGroup gs o, q.2 = (seen ++ [o]).filter (fun x => x.Key == q.1))
    ∧ (∀ k : String, (pushGroup gs o).any (fun p => p.1 == k) = false →
      (seen ++ [o]).filter (fun x => x.Key == k) = []) := by
  by_cases hmem : gs.any (fun p => p.1 == o.Key) = true
  · constructor
    · intro q hq
      simp only [pushGroup, hmem, if_true, List.mem_map] at hq
      obtain ⟨q0, hq0, hq0eq⟩ := hq
      by_cases hk : (q0.1 == o.Key) = true
      · rw [if_pos hk] at hq0eq
        have hkey : q0.1 = o.Key := by simpa using hk
        have hq02 := h1 q0 hq0
        rw [← hq0eq]
        rw [List.filter_append]
        simp only [List.filter_cons, List.filter_nil]
        have hok : (o.Key == q0.1) = true := by simp [hkey]
        simp only [hok, if_true]
        rw [← hq02]
      · rw [if_neg (by simpa using hk)] at hq0eq
        rw [← hq0eq]
        rw [List.filter_append]
        have hok : (o.Key == q0.1) = false := by
          rw [beq_eq_false_iff_ne]
          intro h
          have hk2 : q0.1 ≠ o.Key := by simpa using hk
          exact hk2 h.symm
        simp only [List.filter_cons, List.filter_nil, hok, Bool.false_eq_true, if_false]
        simpa using h1 q0 hq0
    · intro k hk
      have hkeys : gs.any (fun p => p.1 == k) = false := by
        simp only [pushGroup, hmem, if_true] at hk
        rw [List.any_eq_false] at hk ⊢
        intro p hp
        have hmap : (if p.1 == o.Key then (p.1, p.2 ++ [o]) else p) ∈
            gs.map (fun p => if p.1 == o.Key then (p.1, p.2 ++ [o]) else p) :=
          List.mem_map_of_mem _ hp
        have := hk _ hmap
        by_cases hpk : (p.1 == o.Key) = true
        · rw [if_pos hpk] at this
          simpa using this
        · rw [if_neg (by simpa using hpk)] at this
          exact this
      have hne : (o.Key == k) = false := by
        rw [List.any_eq_true] at hmem
        obtain ⟨p, hp, hpk⟩ := hmem
        have h3 := keysAny_false_forall hkeys p hp
        rw [beq_eq_false_iff_ne]
        intro h
        exact h3 (by
          have : p.1 = o.Key := by simpa using hpk
          rw [this, h])
      rw [List.filter_append]
      simp only [List.filter_cons, List.filter_nil, hne, Bool.false_eq_true, if_false]
      simpa using h2 k hkeys
  · have hmem' : gs.any (fun p => p.1 == o.Key) = false := Bool.eq_false_iff.mpr hmem
    constructor
    · intro q hq
      simp only [pushGroup, hmem', Bool.false_eq_true, if_false, List.mem_append,
        List.mem_singleton] at hq
      rcases hq with hq | hq
      · have hq2 := h1 q hq
        have hne : (o.Key == q.1) = false := by
          have h3 := keysAny_false_forall hmem' q hq
          rw [beq_eq_false_iff_ne]
          intro h
          exact h3 h.symm
        rw [List.filter_append]
        simp only [List.filter_cons, List.filter_nil, hne, Bool.false_eq_true, if_false]
        simpa using hq2
      · rw [hq]
        rw [List.filter_append]
        simp only [List.filter_cons, List.filter_nil, beq_self_eq_true, if_true]
        rw [h2 o.Key hmem']
        rfl
    · intro k hk
      simp only [pushGroup, hmem', Bool.false_eq_true, if_false, List.any_append,
        List.any_cons, List.any_nil, Bool.or_false] at hk
      rw [Bool.or_eq_false_iff] at hk
      rw [List.filter_append]
      simp only [List.filter_cons, List.filter_nil, hk.2, Bool.false_eq_true, if_false]
      simpa using h2 k hk.1

theorem groupFold_filter :
    ∀ (items : List FlatObj) (gs : List (String × List FlatObj)) (seen : List FlatObj),
      (∀ p ∈ gs, p.2 = seen.filter (fun x => x.Key == p.1)) →
      (∀ k : String, gs.any (fun p => p.1 == k) = false →
        seen.filter (fun x => x.Key == k) = []) →
      ∀ p ∈ items.foldl pushGroup gs,
        p.2 = (seen ++ items).filter (fun x => x.Key == p.1) := by
  intro items
  induction items with
  | nil =>
    intro gs seen h1 h2 p hp
    simpa using h1 p hp
  | cons o rest ih =>
    intro gs seen h1 h2 p hp
    rw [List.foldl_cons] at hp
    obtain ⟨h1', h2'⟩ := pushGroup_filter_inv o gs seen h1 h2
    have := ih (pushGroup gs o) (seen ++ [o]) h1' h2' p hp
    simpa using this

theorem groupFold_ne_nil :
    ∀ (items : List FlatObj) (gs : List (String × List FlatObj)),
      (∀ p ∈ gs, p.2 ≠ []) → ∀ p ∈ items.foldl pushGroup gs, p.2 ≠ [] := by
  intro items
  induction items with
  | nil => intro gs h p hp; exact h p hp
  | cons o rest ih =>
    intro gs h p hp
    rw [List.foldl_cons] at hp
    refine ih (pushGroup gs o) ?_ p hp
    intro q hq
    by_cases hmem : gs.any (fun p => p.1 == o.Key) = true
    · simp only [pushGroup, hmem, if_true, List.mem_map] at hq
      obtain ⟨q0, hq0, hq0eq⟩ := hq
      by_cases hk : (q0.1 == o.Key) = true
      · rw [if_pos hk] at hq0eq
        rw [← hq0eq]
        simp
      · rw [if_neg (by simpa using hk)] at hq0eq
        rw [← hq0eq]
        exact h q0 hq0
    · have hmem' : gs.any (fun p => p.1 == o.Key) = false := Bool.eq_false_iff.mpr hmem
      simp only [pushGroup, hmem', Bool.false_eq_true, if_false, List.mem_append,
        List.mem_singleton] at hq
      rcases hq with hq | hq
      · exact h q hq
      · rw [hq]; simp

/-- C3: every row produced by the version-grouping step carries the whole
group of its relative key in `Versions` — nonempty, sorted
most-recent-first, a permutation of the visible processed entries with the
row's key — and the representative inherits `isDeleteMarker` and
`LastModified` from the group's most recent entry (the head of the sorted
group, which bounds every member's time). -/
theorem C3_version_grouping (path : String) (vs : List VersionRec) (ms : List MarkerRec)
    (now : Int) (row : BrowserObject)
    (hrow : row ∈ versionRows path now vs ms) :
    ∃ items : List FlatObj,
      row.Versions = some items
      ∧ items ≠ []
      ∧ List.Pairwise (fun a b => vTime b ≤ vTime a) items
      ∧ (∀ v ∈ items, vTime v ≤ vTime (items.headD {}))
      ∧ row.isDeleteMarker = (items.headD {}).isDeleteMarker
      ∧ row.LastModified = (items.headD {}).LastModified
      ∧ (∀ v ∈ items, v.Key = row.Key)
      ∧ items.Perm ((processedVersionItems path now vs ms).filter
          (fun o => o.Key == row.Key)) := by
  simp only [versionRows, List.mem_map] at hrow
  obtain ⟨p, hp, hpeq⟩ := hrow
  have hfilter := groupFold_filter (processedVersionItems path now vs ms) [] []
    (by intro q hq; simp at hq) (by intro k _; rfl) p hp
  simp only [List.nil_append] at hfilter
  have hne2 := groupFold_ne_nil (processedVersionItems path now vs ms) []
    (by intro q hq; simp at hq) p hp
  have hperm := sortVersionsDesc_perm p.2
  refine ⟨sortVersionsDesc p.2, ?_, ?_, sortVersionsDesc_pairwise p.2,
    pairwise_headD_max (sortVersionsDesc_pairwise p.2), ?_, ?_, ?_, ?_⟩
  · rw [← hpeq]; rfl
  · intro hcon
    have hlen := hperm.length_eq
    rw [hcon] at hlen
    exact hne2 (List.length_eq_zero.mp hlen.symm)
  · rw [← hpeq]; rfl
  · rw [← hpeq]; rfl
  · intro v hv
    have hvmem : v ∈ p.2 := hperm.mem_iff.mp hv
    rw [hfilter] at hvmem
    have hkk := List.of_mem_filter hvmem
    have hkey : v.Key = p.1 := by simpa using hkk
    rw [← hpeq]
    exact hkey
  · have hrk : row.Key = p.1 := by rw [← hpeq]; rfl
    rw [hrk, ← hfilter]
    exact hperm

/-- Witness for C3 at Scenario B: `doc.txt` with three versions and a
newest delete marker groups into one row, a delete marker, whose
`Versions` has length 4. -/
theorem C3_witness :
    (versionRows "" 0 c3Versions c3Markers).length = 1
    ∧ ((versionRows "" 0 c3Versions c3Markers).headD {}).isDeleteMarker = true
    ∧ (((versionRows "" 0 c3Versions c3Markers).headD {}).Versions.getD []).length = 4
    ∧ ∃ items : List FlatObj,
        ((versionRows "" 0 c3Versions c3Markers).headD {}).Versions = some items
        ∧ items ≠ []
        ∧ List.Pairwise (fun a b => vTime b ≤ vTime a) items
        ∧ (∀ v ∈ items, vTime v ≤ vTime (items.headD {}))
        ∧ ((versionRows "" 0 c3Versions c3Markers).headD {}).isDeleteMarker
            = (items.headD {}).isDeleteMarker
        ∧ ((versionRows "" 0 c3Versions c3Markers).headD {}).LastModified
            = (items.headD {}).LastModified
        ∧ (∀ v ∈ items, v.Key = ((versionRows "" 0 c3Versions c3Markers).headD {}).Key)
        ∧ items.Perm ((processedVersionItems "" 0 c3Versions c3Markers).filter
            (fun o => o.Key == ((versionRows "" 0 c3Versions c3Markers).headD {}).Key)) :=
  ⟨by decide, by decide, by decide,
   C3_version_grouping "" c3Versions c3Markers 0 _ (by decide)⟩

/-! ### C1 — folders, the uploading list and the pending-deletion set -/

/-- C1 counterexample: from the fresh store, `init`, one listing producing
the folder `d`, and a `deleteFolder` whose recursive listing throws reach a
state in which the folder row is still displayed and its composite key sits
in `filesToBeDeleted` — so a `kind=folder` object does occur in the
pending-deletion set, contradicting the claim. -/
theorem C1_counterexample :
    ∃ s : FilesState, Reachable s
      ∧ ∃ f ∈ s.files, f.type = some FileType.folder
          ∧ s.filesToBeDeleted.contains
              ((f.path.getD "") ++ f.Key ++ (f.VersionId.getD "")) = true := by
  refine ⟨c1Stage3, ?_, c1Folder, ?_, rfl, ?_⟩
  · exact Reachable.step
      (Reachable.step
        (Reachable.step Reachable.start
          (Step.init initialFilesState
            { accessKey := "ak", bucket := "b", browserRoot := "/",
              openModalOnFirstUpload := true }))
        (Step.listCustom c1Stage1 "" 1 false (Except.ok c1Resp) 0))
      (Step.deleteFolder c1Stage2 c1Folder "" true 1 DirTree.failed {})
  · decide
  · decide

theorem uploading_listCustomFn (st : FilesState) (path : String) (page : Nat)
    (save : Bool) (resp : Except Unit ListV2Resp) (now : Int) :
    (listCustomFn st path page save resp now).uploading = st.uploading := by
  by_cases h : st.s3 = true
  · cases resp with
    | error e => simp [listCustomFn, h]
    | ok r =>
      simp only [listCustomFn, h, Bool.not_true, Bool.false_eq_true, if_false]
      split <;> rfl
  · have h' : st.s3 = false := by simpa using h
    simp [listCustomFn, h']

theorem uploading_listByTokenFn (st : FilesState) (path : String) (key : Int)
    (resp : Except Unit ListV2Resp) (now : Int) :
    (listByTokenFn st path key resp now).uploading = st.uploading := by
  by_cases h : st.s3 = true
  · cases resp with
    | error e => simp [listByTokenFn, h]
    | ok r => simp [listByTokenFn, h, processFetchedObjectsFn]
  · have h' : st.s3 = false := by simpa using h
    simp [listByTokenFn, h']

theorem uploading_listAllVersionsFn (st : FilesState) (path : String) (page : Nat)
    (save : Bool) (resp : Except Unit ListVersionsResp) (now : Int) :
    (listAllVersionsFn st path page save resp now).uploading = st.uploading := by
  by_cases h : st.s3 = true
  · cases resp with
    | error e => simp [listAllVersionsFn, h]
    | ok r =>
      simp only [listAllVersionsFn, h, Bool.not_true, Bool.false_eq_true, if_false]
      split
      · split <;> rfl
      · rfl
  · have h' : st.s3 = false := by simpa using h
    simp [listAllVersionsFn, h']

theorem initListLoop_uploading (path : String) (now : Int) :
    ∀ (pages : List (Except Unit ListV2Resp)) (st : FilesState) (it : Nat) (kc : Int)
      (st2 : FilesState) (res : Option Int),
      initListLoop path now pages st it kc = (st2, res) → st2.uploading = st.uploading := by
  intro pages
  induction pages with
  | nil =>
    intro st it kc st2 res heq
    simp only [initListLoop] at heq
    cases heq
    rfl
  | cons p rest ih =>
    intro st it kc st2 res heq
    match p with
    | Except.error u =>
      simp only [initListLoop] at heq
      cases heq
      rfl
    | Except.ok r =>
      by_cases hit : (it == 1) = true
      · simp only [initListLoop, hit, if_true] at heq
        cases htok : r.NextContinuationToken with
        | none =>
          simp only [htok] at heq
          cases heq
          rfl
        | some tok =>
          simp only [htok] at heq
          have h2 := ih _ (it + 1) _ _ _ heq
          simpa [processFetchedObjectsFn] using h2
      · have hit' : (it == 1) = false := by simpa using hit
        simp only [initListLoop, hit', Bool.false_eq_true, if_false] at heq
        cases htok : r.NextContinuationToken with
        | none =>
          simp only [htok] at heq
          cases heq
          rfl
        | some tok =>
          simp only [htok] at heq
          have h2 := ih _ (it + 1) _ _ _ heq
          simpa using h2

theorem uploading_initListFn (st : FilesState) (path : String)
    (pages : List (Except Unit ListV2Resp)) (now : Int) :
    (initListFn st path pages now).uploading = st.uploading := by
  by_cases h : st.s3 = true
  · simp only [initListFn, h, Bool.not_true, Bool.false_eq_true, if_false]
    split
    next st1 kc heq => simpa using initListLoop_uploading path now pages st 1 0 st1 _ heq
    next st1 heq => simpa using initListLoop_uploading path now pages st 1 0 st1 _ heq
  · have h' : st.s3 = false := by simpa using h
    simp [initListFn, h']

theorem uploading_applyRefresh (st : FilesState) (env : RefreshEnv) :
    (applyRefresh st env).uploading = st.uploading := by
  unfold applyRefresh
  split
  · rw [uploading_listAllVersionsFn]
    rfl
  · split
    · rw [uploading_listCustomFn]
      rfl
    · rw [uploading_initListFn]

theorem uploadingOnlyFiles_of_eq {s t : FilesState}
    (h : t.uploading = s.uploading) (hs : uploadingOnlyFiles s) :
    uploadingOnlyFiles t := by
  intro u hu
  rw [h] at hu
  exact hs u hu

theorem uploadingOnlyFiles_enqueue (s : FilesState) (key : String) (size : Nat)
    (now : Int) (hs : uploadingOnlyFiles s) :
    uploadingOnlyFiles (enqueueUploadFn s key size now).1 := by
  unfold enqueueUploadFn
  by_cases h3 : s.s3 = true
  · simp only [h3, Bool.not_true, Bool.false_eq_true, if_false]
    by_cases hbusy : s.uploading.any
        (fun f => f.Key == key && f.status == UploadingStatus.InProgress) = true
    · simpa [hbusy] using hs
    · have hbusy' : s.uploading.any
          (fun f => f.Key == key && f.status == UploadingStatus.InProgress) = false := by
        simpa using hbusy
      simp only [hbusy', Bool.false_eq_true, if_false]
      by_cases hbig : (decide (size > uploadSizeLimit)) = true
      · simp only [hbig, if_true]
        intro u hu
        simp only [List.mem_append, List.mem_singleton] at hu
        rcases hu with hu | hu
        · exact hs u (removeFirstWhere_mem _ _ u hu)
        · rw [hu]
      · have hbig' : (decide (size > uploadSizeLimit)) = false := by simpa using hbig
        simp only [hbig', Bool.false_eq_true, if_false]
        intro u hu
        simp only [List.mem_append, List.mem_singleton] at hu
        rcases hu with hu | hu
        · exact hs u (removeFirstWhere_mem _ _ u hu)
        · rw [hu]
  · have h3' : s.s3 = false := by simpa using h3
    simpa [h3'] using hs

theorem uploadingOnlyFiles_updateFirst (s : FilesState)
    (p : UploadingBrowserObject → Bool)
    (f : UploadingBrowserObject → UploadingBrowserObject)
    (hf : ∀ x, x.type = some FileType.file → (f x).type = some FileType.file)
    (hs : uploadingOnlyFiles s) :
    ∀ u ∈ updateFirstWhere p f s.uploading, u.type = some FileType.file := by
  intro u hu
  exact updateFirstWhere_all p f (fun x => x.type = some FileType.file) hf
    s.uploading (fun x hx => hs x hx) u hu

theorem updateFirstWhere_all2 {α} (Q : α → Prop) {p : α → Bool} {f : α → α}
    {l : List α} {y : α} (hy : y ∈ updateFirstWhere p f l)
    (hall : ∀ x ∈ l, Q x) (hf : ∀ x, Q x → Q (f x)) : Q y :=
  updateFirstWhere_all p f Q hf l hall y hy

/-- `removeFile` never touches the uploading list. -/
theorem removeFileFn_uploading (t : FilesState) (f : FlatObj) :
    (removeFileFn t f).uploading = t.uploading := rfl

theorem uploadingOnlyFiles_chainStep (s : FilesState) (key : String)
    (outcome : Except UploadOutcomeErr Unit) (env : RefreshEnv)
    (hs : uploadingOnlyFiles s) :
    uploadingOnlyFiles (chainStepFn s key outcome env) := by
  cases hfind : s.uploading.find?
      (fun f => f.Key == key && !(f.status == UploadingStatus.Cancelled)) with
  | none =>
    simp only [chainStepFn, hfind]
    exact hs
  | some item =>
    cases outcome with
    | error e =>
      simp only [chainStepFn, hfind]
      intro u hu
      simp only at hu
      exact updateFirstWhere_all2 (fun (x : UploadingBrowserObject) => x.type = some FileType.file) hu
        (fun x hx => hs x hx) (fun x hx => hx)
    | ok v =>
      simp only [chainStepFn, hfind]
      split
      · intro u hu
        simp only [uploading_applyRefresh] at hu
        exact updateFirstWhere_all2 (fun (x : UploadingBrowserObject) => x.type = some FileType.file) hu
          (fun x hx => hs x hx) (fun x hx => hx)
      · intro u hu
        simp only [uploading_applyRefresh] at hu
        exact updateFirstWhere_all2 (fun (x : UploadingBrowserObject) => x.type = some FileType.file) hu
          (fun x hx => hs x hx) (fun x hx => hx)

theorem uploadingOnlyFiles_cancel (s : FilesState) (key : String)
    (hs : uploadingOnlyFiles s) : uploadingOnlyFiles (cancelUploadFn s key) := by
  cases hfind : s.uploading.find? (fun f => f.Key == key) with
  | none =>
    simp only [cancelUploadFn, hfind]
    exact hs
  | some item =>
    simp only [cancelUploadFn, hfind]
    intro u hu
    simp only at hu
    exact updateFirstWhere_all2 (fun (x : UploadingBrowserObject) => x.type = some FileType.file) hu
      (fun x hx => hs x hx) (fun x hx => hx)

theorem deleteObjectFn_uploading_mem (s : FilesState) (path : String)
    (file : Option FlatObj) (isFolder shouldRefresh : Bool) (env : RefreshEnv) :
    ∀ u ∈ (deleteObjectFn s path file isFolder shouldRefresh env).1.uploading,
      u ∈ s.uploading := by
  intro u hu
  cases file with
  | none => exact hu
  | some f =>
    by_cases h3 : s.s3 = true
    · by_cases hFolder : isFolder = true
      · simp only [deleteObjectFn, h3, hFolder, Bool.not_true, Bool.false_eq_true,
          if_false] at hu
        exact List.mem_of_mem_filter hu
      · have hFolder' : isFolder = false := by simpa using hFolder
        by_cases hRef : shouldRefresh = true
        · simp only [deleteObjectFn, h3, hFolder', hRef, Bool.not_true, Bool.not_false,
            Bool.false_eq_true, if_false, if_true, removeFileFn_uploading,
            uploading_applyRefresh] at hu
          exact List.mem_of_mem_filter hu
        · have hRef' : shouldRefresh = false := by simpa using hRef
          simp only [deleteObjectFn, h3, hFolder', hRef', Bool.not_true, Bool.not_false,
            Bool.false_eq_true, if_false, if_true, removeFileFn_uploading] at hu
          exact List.mem_of_mem_filter hu
    · have h3' : s.s3 = false := by simpa using h3
      simp only [deleteObjectFn, h3', Bool.not_false, if_true] at hu
      exact hu

theorem uploadingOnlyFiles_deleteObject (s : FilesState) (path : String)
    (file : Option FlatObj) (isFolder shouldRefresh : Bool) (env : RefreshEnv)
    (hs : uploadingOnlyFiles s) :
    uploadingOnlyFiles (deleteObjectFn s path file isFolder shouldRefresh env).1 :=
  fun u hu => hs u (deleteObjectFn_uploading_mem s path file isFolder shouldRefresh env u hu)

theorem recurseDeleteF_uploading_mem (sr : Bool) (env : RefreshEnv) :
    ∀ (fuel : Nat) (tree : DirTree) (st : FilesState),
      ∀ u ∈ (recurseDeleteF sr env fuel tree st).1.uploading, u ∈ st.uploading := by
  intro fuel
  induction fuel with
  | zero => intro tree st u hu; exact hu
  | succ n ih =>
    intro tree st u hu
    cases tree with
    | failed => exact hu
    | node cs subs =>
      simp only [recurseDeleteF] at hu
      have h1 : ∀ w ∈ (cs.foldl
          (fun s c => (deleteObjectFn s "" (some (browserOfS3 c)) true sr env).1)
          st).uploading, w ∈ st.uploading := by
        refine foldl_preserve (fun s => ∀ w ∈ s.uploading, w ∈ st.uploading) _ ?_ cs st
          (fun w hw => hw)
        intro b a hb w hw
        exact hb w (deleteObjectFn_uploading_mem b "" (some (browserOfS3 a)) true sr env w hw)
      have haux : ∀ (ts : List DirTree) (acc : FilesState × Bool),
          (∀ w ∈ acc.1.uploading, w ∈ st.uploading) →
          ∀ w ∈ (ts.foldl
              (fun acc t => if acc.2 then recurseDeleteF sr env n t acc.1 else acc)
              acc).1.uploading, w ∈ st.uploading := by
        intro ts
        induction ts with
        | nil => intro acc hacc w hw; exact hacc w hw
        | cons t ts2 iht =>
          intro acc hacc w hw
          rw [List.foldl_cons] at hw
          refine iht _ ?_ w hw
          by_cases hb : acc.2 = true
          · simp only [hb, if_true]
            intro z hz
            exact hacc z (ih t acc.1 z hz)
          · have hb' : acc.2 = false := by simpa using hb
            simp only [hb', Bool.false_eq_true, if_false]
            exact hacc
      exact haux subs _ h1 u hu

theorem deleteFolderFn_uploading_mem (s : FilesState) (file : BrowserObject)
    (path : String) (sr : Bool) (fuel : Nat) (tree : DirTree) (env : RefreshEnv) :
    ∀ u ∈ (deleteFolderFn s file path sr fuel tree env).1.uploading, u ∈ s.uploading := by
  intro u hu
  by_cases h3 : s.s3 = true
  · simp only [deleteFolderFn, h3, Bool.not_true, Bool.false_eq_true, if_false] at hu
    split at hu
    next st2 heq =>
      have hmem := recurseDeleteF_uploading_mem sr env fuel tree _ u (by rw [heq]; exact hu)
      simpa using hmem
    next st2 heq =>
      by_cases hRef : sr = true
      · simp only [hRef, if_true, uploading_applyRefresh, removeFileFn_uploading] at hu
        have hmem := recurseDeleteF_uploading_mem sr env fuel tree _ u (by rw [heq]; exact hu)
        simpa using hmem
      · have hRef' : sr = false := by simpa using hRef
        simp only [hRef', Bool.false_eq_true, if_false, removeFileFn_uploading] at hu
        have hmem := recurseDeleteF_uploading_mem sr env fuel tree _ u (by rw [heq]; exact hu)
        simpa using hmem
  · have h3' : s.s3 = false := by simpa using h3
    simp only [deleteFolderFn, h3', Bool.not_false, if_true] at hu
    exact hu

theorem deleteFolderWithVersionsFn_uploading_mem (s : FilesState) (file : BrowserObject)
    (path : String) (fuel : Nat) (tree : DirTree) (env : RefreshEnv) :
    ∀ u ∈ (deleteFolderWithVersionsFn s file path fuel tree env).1.uploading,
      u ∈ s.uploading := by
  intro u hu
  by_cases h3 : s.s3 = true
  · simp only [deleteFolderWithVersionsFn, h3, Bool.not_true, Bool.false_eq_true,
      if_false] at hu
    split at hu
    next st2 heq =>
      have hmem := recurseDeleteF_uploading_mem false env fuel tree _ u (by rw [heq]; exact hu)
      simpa using hmem
    next st2 heq =>
      simp only [removeFileFn_uploading] at hu
      have hmem := recurseDeleteF_uploading_mem false env fuel tree _ u (by rw [heq]; exact hu)
      simpa using hmem
  · have h3' : s.s3 = false := by simpa using h3
    simp only [deleteFolderWithVersionsFn, h3', Bool.not_false, if_true] at hu
    exact hu

theorem deleteObjectWithVersionsFn_uploading_mem (s : FilesState) (path : String)
    (f : FlatObj) (listOk : Bool) :
    ∀ u ∈ (deleteObjectWithVersionsFn s path f listOk).uploading, u ∈ s.uploading := by
  intro u hu
  by_cases h3 : s.s3 = true
  · by_cases hok : listOk = true
    · simp only [deleteObjectWithVersionsFn, h3, hok, Bool.not_true, Bool.not_false,
        Bool.false_eq_true, if_false, removeFileFn_uploading] at hu
      exact List.mem_of_mem_filter hu
    · have hok' : listOk = false := by simpa using hok
      simp only [deleteObjectWithVersionsFn, h3, hok', Bool.not_true, Bool.not_false,
        Bool.false_eq_true, if_false, if_true] at hu
      exact hu
  · have h3' : s.s3 = false := by simpa using h3
    simp only [deleteObjectWithVersionsFn, h3', Bool.not_false, if_true] at hu
    exact hu

theorem deleteSelectedGo_uploading_mem (path : String) (env : RefreshEnv)
    (trees : Nat → DirTree) (fuel : Nat) :
    ∀ (fs : List BrowserObject) (i : Nat) (st : FilesState),
      ∀ u ∈ (deleteSelectedGo path env trees fuel fs i st).uploading, u ∈ st.uploading := by
  intro fs
  induction fs with
  | nil => intro i st u hu; exact hu
  | cons f fs2 ih =>
    intro i st u hu
    simp only [deleteSelectedGo] at hu
    by_cases hf : (f.type == some FileType.file) = true
    · simp only [hf, if_true] at hu
      have h2 := ih (i + 1) _ u hu
      exact deleteObjectFn_uploading_mem st path (some f.toFlatObj) false false env u h2
    · have hf' : (f.type == some FileType.file) = false := by simpa using hf
      simp only [hf', Bool.false_eq_true, if_false] at hu
      have h2 := ih (i + 1) _ u hu
      exact deleteFolderFn_uploading_mem st f path false fuel (trees i) env u h2

theorem deleteSelectedFn_uploading_mem (s : FilesState) (trees : Nat → DirTree)
    (fuel : Nat) (env : RefreshEnv) :
    ∀ u ∈ (deleteSelectedFn s trees fuel env).uploading, u ∈ s.uploading := by
  intro u hu
  simp only [deleteSelectedFn] at hu
  have h2 := deleteSelectedGo_uploading_mem s.path env trees fuel _ 0 _ u hu
  simpa [addFilesToBeDeletedFn] using h2

theorem uploadingOnlyFiles_uploadOp (s : FilesState) (ign : Bool)
    (entries : List TravEntry) (now : Int) (hs : uploadingOnlyFiles s) :
    uploadingOnlyFiles (uploadOp s ign entries now) := by
  unfold uploadOp uploadFn
  by_cases h3 : s.s3 = true
  · simp only [h3, Bool.not_true, Bool.false_eq_true, if_false]
    split
    next heq => exact hs
    next st1 heq =>
      split at heq
      · exact Except.noConfusion heq
      · injection heq with heq2
        rw [← heq2]
        refine foldl_preserve uploadingOnlyFiles _ ?_ _ s hs
        intro b a hb
        exact uploadingOnlyFiles_enqueue b _ _ now hb
  · have h3' : s.s3 = false := by simpa using h3
    simp only [h3', Bool.not_false, if_true]
    exact hs

/-- Every public operation preserves the files-only invariant of the
uploading list. -/
theorem step_preserves_uploadingOnlyFiles {s t : FilesState} (hstep : Step s t)
    (hs : uploadingOnlyFiles s) : uploadingOnlyFiles t := by
  cases hstep with
  | init a => exact fun u hu => hs u hu
  | initList path pages now =>
    exact uploadingOnlyFiles_of_eq (uploading_initListFn s path pages now) hs
  | listCustom path page save resp now =>
    exact uploadingOnlyFiles_of_eq (uploading_listCustomFn s path page save resp now) hs
  | listByToken path key resp now =>
    exact uploadingOnlyFiles_of_eq (uploading_listByTokenFn s path key resp now) hs
  | listAllVersions path page save resp now =>
    exact uploadingOnlyFiles_of_eq (uploading_listAllVersionsFn s path page save resp now) hs
  | upload ign entries now => exact uploadingOnlyFiles_uploadOp s ign entries now hs
  | enqueueUpload key size now => exact uploadingOnlyFiles_enqueue s key size now hs
  | chainStep key outcome env => exact uploadingOnlyFiles_chainStep s key outcome env hs
  | cancelUpload key => exact uploadingOnlyFiles_cancel s key hs
  | clearUploading => exact fun u hu => absurd hu (List.not_mem_nil u)
  | deleteObject path file isFolder shouldRefresh env =>
    exact uploadingOnlyFiles_deleteObject s path file isFolder shouldRefresh env hs
  | deleteObjectWithVersions path f listOk =>
    exact fun u hu => hs u (deleteObjectWithVersionsFn_uploading_mem s path f listOk u hu)
  | deleteFolder file path shouldRefresh fuel tree env =>
    exact fun u hu =>
      hs u (deleteFolderFn_uploading_mem s file path shouldRefresh fuel tree env u hu)
  | deleteFolderWithVersions file path fuel tree env =>
    exact fun u hu =>
      hs u (deleteFolderWithVersionsFn_uploading_mem s file path fuel tree env u hu)
  | deleteSelected trees fuel env =>
    exact fun u hu => hs u (deleteSelectedFn_uploading_mem s trees fuel env u hu)
  | updateSelectedFiles fs => exact fun u hu => hs u hu
  | clear => exact fun u hu => absurd hu (List.not_mem_nil u)

/-- C1 (amended): in every state reachable from the initial state by the
public operations, every entry of `uploading` has `type = file` — a folder
never appears there.  (The `filesToBeDeleted` half of the original claim is
false: folder and selection deletion insert the folder's composite key into
the pending-deletion set, see the counterexample.) -/
theorem C1_amended (s : FilesState) (h : Reachable s) : uploadingOnlyFiles s := by
  induction h with
  | start => exact fun u hu => absurd hu (List.not_mem_nil u)
  | step hr hstep ih => exact step_preserves_uploadingOnlyFiles hstep ih

/-- Witness for C1 (amended): the state reached by `init` followed by one
`enqueueUpload` holds exactly one uploading entry, and it is a file row. -/
theorem C1_witness :
    ({ Key := "k", Bucket := "b", bodySize := 3, LastModified := some 0,
       status := UploadingStatus.InProgress, type := some FileType.file } :
      UploadingBrowserObject).type = some FileType.file :=
  C1_amended c1UpState
    (Reachable.step
      (Reachable.step Reachable.start
        (Step.init initialFilesState
          { accessKey := "ak", bucket := "b", browserRoot := "/",
            openModalOnFirstUpload := true }))
      (Step.enqueueUpload c1Stage1 "k" 3 0))
    _ (by decide)
